import Mathlib

/-!
Verification of the WeFlow image-decrypt service (electron/services/imageDecryptService.ts).

The development shallowly embeds the service's pure codec (version detection,
legacy XOR decode, hybrid AES+XOR decode, strict PKCS7 unpadding) and the
stateful resolution/caching layer.  Byte strings are `List Nat` with values
below 256 (Node `Buffer`s); JavaScript strings are `List Char`.  The AES-128-ECB
block cipher is an external library call (node:crypto) and is therefore a
parameter of the embedding; the library's own failure behaviour (key length,
non-block-aligned input with autopadding disabled) is modelled explicitly.
Fallible code returns `Except String`.
-/

deriving instance DecidableEq for Except

namespace WeFlow

/-- JavaScript strings are modelled as lists of characters. -/
abbrev Str := List Char

/-- Byte strings (Node `Buffer`s) are lists of naturals below 256. -/
abbrev Bytes := List Nat

/-! ## Basic JS semantics helpers -/

/-- Two's-complement reinterpretation of a 32-bit value, as produced by
JavaScript's bitwise operators (`|`, `<<`). -/
def toSigned32 (v : Nat) : Int :=
  if v % 2 ^ 32 < 2 ^ 31 then ((v % 2 ^ 32 : Nat) : Int)
  else ((v % 2 ^ 32 : Nat) : Int) - 2 ^ 32

/-- JavaScript's `%` operator: remainder truncated toward zero. -/
def jsRem (a n : Int) : Int :=
  if 0 ≤ a then a % n else -((-a) % n)

/-- Clamped index resolution of `TypedArray.prototype.subarray`: a negative
index counts from the end of the buffer; results are clamped to `[0, len]`. -/
def jsIndex (len : Nat) (i : Int) : Nat :=
  if i < 0 then ((len : Int) + i).toNat else min i.toNat len

/-- `buf.subarray(start, stop)` (Node `Buffer` / `TypedArray` semantics). -/
def jsSubarray (l : List Nat) (start stop : Int) : List Nat :=
  let s := jsIndex l.length start
  let e := jsIndex l.length stop
  (l.drop s).take (e - s)

/-- `buf.subarray(start)` — one-argument form, up to the end of the buffer. -/
def jsSubarrayFrom (l : List Nat) (start : Int) : List Nat :=
  jsSubarray l start (l.length : Int)

/-! ## DecryptionEngine: pure codec (source lines 846-972) -/

/-- `bytesToInt32` (source lines 944-949): little-endian signed 32-bit read of
exactly four bytes; JavaScript's `b0 | b1<<8 | b2<<16 | b3<<24` yields the
two's-complement (signed) interpretation. -/
def bytesToInt32 (bytes : Bytes) : Except String Int :=
  if bytes.length = 4 then
    .ok (toSigned32 (bytes.getD 0 0 % 256 + bytes.getD 1 0 % 256 * 2 ^ 8 +
          bytes.getD 2 0 % 256 * 2 ^ 16 + bytes.getD 3 0 % 256 * 2 ^ 24))
  else .error "需要4个字节"

/-- `strictRemovePadding` (source lines 958-972): strict PKCS7 unpadding. -/
def strictRemovePadding (data : Bytes) : Except String Bytes :=
  if data.length = 0 then .error "解密结果为空，填充非法"
  else
    let paddingLength := data.getLast?.getD 0
    if paddingLength = 0 ∨ paddingLength > 16 ∨ paddingLength > data.length then
      .error "PKCS7 填充长度非法"
    else if (data.drop (data.length - paddingLength)).all (· = paddingLength) then
      .ok (data.take (data.length - paddingLength))
    else .error "PKCS7 填充内容非法"

/-- `decryptDatV3` (source lines 883-890): legacy plain-XOR decode. Each output
byte is `data[i] ^ xorKey` truncated to a byte by the `Buffer` store. -/
def decryptDatV3 (data : Bytes) (xorKey : Nat) : Bytes :=
  data.map (fun b => (b ^^^ xorKey) % 256)

/-- `decryptDatV4` (source lines 892-942): hybrid AES-128-ECB + XOR decode.
`aesDecrypt key data` stands for the node:crypto raw ECB decryption
(`createDecipheriv` with autopadding disabled); the two explicit `.error`
branches before it model the library's own throws for a key that is not
16 bytes and for input that is not a multiple of the block size. -/
def decryptDatV4 (aesDecrypt : Bytes → Bytes → Bytes) (bytes : Bytes)
    (xorKey : Nat) (aesKey : Bytes) : Except String Bytes :=
  if bytes.length < 15 then .error "文件太小，无法解析" else
  let header := jsSubarray bytes 0 15
  let data := (bytes.drop 15 : Bytes)
  match bytesToInt32 (jsSubarray header 6 10) with
  | .error e => .error e
  | .ok aesSize =>
  match bytesToInt32 (jsSubarray header 10 14) with
  | .error e => .error e
  | .ok xorSize =>
  let remainder := jsRem (jsRem aesSize 16 + 16) 16
  let alignedAesSize := aesSize + (16 - remainder)
  if alignedAesSize > (data.length : Int) then
    .error "文件格式异常：AES 数据长度超过文件实际长度" else
  let aesData := jsSubarray data 0 alignedAesSize
  match (if aesData.length > 0 then
      if aesKey.length ≠ 16 then .error "Invalid key length"
      else if aesData.length % 16 ≠ 0 then .error "wrong final block length"
      else strictRemovePadding (aesDecrypt aesKey aesData)
    else (.ok [] : Except String Bytes)) with
  | .error e => .error e
  | .ok unpadded =>
  let remaining := jsSubarrayFrom data alignedAesSize
  if xorSize < 0 ∨ xorSize > (remaining.length : Int) then
    .error "文件格式异常：XOR 数据长度不合法" else
  if xorSize > 0 then
    let rawLength : Int := (remaining.length : Int) - xorSize
    if rawLength < 0 then .error "文件格式异常：原始数据长度小于XOR长度" else
    let rawData := jsSubarray remaining 0 rawLength
    let xorData := jsSubarrayFrom remaining rawLength
    .ok (unpadded ++ rawData ++ xorData.map (fun b => (b ^^^ xorKey) % 256))
  else .ok (unpadded ++ remaining)

/-- The fixed-key-variant magic `07 08 56 31 08 07` (source line 874). -/
def fixedKeyMagic : Bytes := [0x07, 0x08, 0x56, 0x31, 0x08, 0x07]

/-- The configurable-key-variant magic `07 08 56 32 08 07` (source line 877). -/
def configKeyMagic : Bytes := [0x07, 0x08, 0x56, 0x32, 0x08, 0x07]

/-- `getDatVersion` (source lines 865-881), on the file's bytes: fixed 6-byte
magic comparison; fewer than 6 bytes or an unknown signature default to the
legacy version 0. -/
def getDatVersion (bytes : Bytes) : Nat :=
  if bytes.length < 6 then 0
  else if bytes.take 6 = fixedKeyMagic then 1
  else if bytes.take 6 = configKeyMagic then 2
  else 0

/-- `asciiKey16` (source lines 951-956): derive a 16-byte AES key from a
configured string; throws when the string is shorter than 16 characters.
`Buffer.from(s, 'ascii')` stores the low byte of each UTF-16 code unit. -/
def asciiKey16 (keyString : Str) : Except String Bytes :=
  if keyString.length < 16 then .error "AES密钥至少需要16个字符"
  else .ok ((keyString.map (fun c => c.toNat % 256)).take 16)

/-- The built-in fixed-variant AES key string (source line 24). -/
def defaultV1AesKey : Str := "cfcd208495d565ef".toList

/-- `decryptDatAuto` (source lines 852-863), on the file's bytes: dispatch by
detected version.  Version 0 is the legacy XOR decode; version 1 uses the
built-in key; version 2 requires a caller-supplied 16-byte key. -/
def decryptDatAuto (aesDecrypt : Bytes → Bytes → Bytes) (bytes : Bytes)
    (xorKey : Nat) (aesKey : Option Bytes) : Except String Bytes :=
  let version := getDatVersion bytes
  if version = 0 then .ok (decryptDatV3 bytes xorKey)
  else if version = 1 then do
    let key ← asciiKey16 defaultV1AesKey
    decryptDatV4 aesDecrypt bytes xorKey key
  else
    match aesKey with
    | none => .error "V4版本需要16字节AES密钥"
    | some k =>
      if k.length ≠ 16 then .error "V4版本需要16字节AES密钥"
      else decryptDatV4 aesDecrypt bytes xorKey k

/-- The hybrid decode as the specification states it (spec §4.4 / claim C1):
the payload is split at `alignedAesSize = aesSize + (16 − aesSize mod 16)`
(mathematical modulus) into an AES segment of exactly that length taken from
the front, and a remainder; the final plaintext is the unpadded AES plaintext,
then the untouched raw region of length `remainder.length − xorSize`, then the
trailing `xorSize` bytes XORed with the key.  Segment extraction uses plain
`take`/`drop` (a nonpositive length yields an empty segment), which is the
only point where this account can differ from the code's
`Buffer.subarray` semantics. -/
def decodeHybridSpec (aesDecrypt : Bytes → Bytes → Bytes) (bytes : Bytes)
    (xorKey : Nat) (aesKey : Bytes) : Except String Bytes :=
  if bytes.length < 15 then .error "文件太小，无法解析" else
  let data := (bytes.drop 15 : Bytes)
  match bytesToInt32 ((bytes.take 15).drop 6 |>.take 4) with
  | .error e => .error e
  | .ok aesSize =>
  match bytesToInt32 ((bytes.take 15).drop 10 |>.take 4) with
  | .error e => .error e
  | .ok xorSize =>
  let alignedAesSize := aesSize + (16 - aesSize % 16)
  if alignedAesSize > (data.length : Int) then
    .error "文件格式异常：AES 数据长度超过文件实际长度" else
  let aesSeg := data.take alignedAesSize.toNat
  match (if aesSeg.length > 0 then
      if aesKey.length ≠ 16 then .error "Invalid key length"
      else if aesSeg.length % 16 ≠ 0 then .error "wrong final block length"
      else strictRemovePadding (aesDecrypt aesKey aesSeg)
    else (.ok [] : Except String Bytes)) with
  | .error e => .error e
  | .ok unpadded =>
  let remaining := data.drop alignedAesSize.toNat
  if xorSize < 0 ∨ xorSize > (remaining.length : Int) then
    .error "文件格式异常：XOR 数据长度不合法" else
  if xorSize > 0 then
    let rawData := remaining.take (remaining.length - xorSize.toNat)
    let xorData := remaining.drop (remaining.length - xorSize.toNat)
    .ok (unpadded ++ rawData ++ xorData.map (fun b => (b ^^^ xorKey) % 256))
  else .ok (unpadded ++ remaining)

/-! ## Helper lemmas -/

/-- XORing a byte twice with the same key, truncating to a byte each time as
the `Buffer` store does, is the identity. -/
theorem xor_byte_involutive (b k : Nat) (hb : b < 256) :
    ((b ^^^ k) % 256 ^^^ k) % 256 = b := by
  have h256 : (256 : Nat) = 2 ^ 8 := by norm_num
  apply Nat.eq_of_testBit_eq
  intro i
  rcases lt_or_ge i 8 with hi | hi
  · rw [h256]
    simp only [Nat.testBit_mod_two_pow, Nat.testBit_xor, hi]
    simp [hi]
  · rw [h256, Nat.testBit_mod_two_pow]
    have h1 : ¬ (i < 8) := by omega
    have h2 : b < 2 ^ i :=
      lt_of_lt_of_le hb (by rw [h256]; exact Nat.pow_le_pow_right (by norm_num) hi)
    simp [h1, Nat.testBit_lt_two_pow h2]

theorem jsIndex_zero (len : Nat) : jsIndex len 0 = 0 := by
  simp [jsIndex]

theorem jsIndex_nonneg_le (len : Nat) (i : Int) (h0 : 0 ≤ i)
    (hle : i ≤ (len : Int)) : jsIndex len i = i.toNat := by
  unfold jsIndex
  rw [if_neg (by omega)]
  omega

theorem jsSubarray_eq_take (l : List Nat) (e : Int) (h0 : 0 ≤ e)
    (hle : e ≤ (l.length : Int)) : jsSubarray l 0 e = l.take e.toNat := by
  unfold jsSubarray
  rw [jsIndex_zero, jsIndex_nonneg_le _ _ h0 hle]
  simp

theorem jsSubarrayFrom_eq_drop (l : List Nat) (s : Int) (h0 : 0 ≤ s)
    (hle : s ≤ (l.length : Int)) : jsSubarrayFrom l s = l.drop s.toNat := by
  unfold jsSubarrayFrom jsSubarray
  rw [jsIndex_nonneg_le _ _ h0 hle,
    jsIndex_nonneg_le _ _ (by omega) (le_refl _)]
  apply List.take_of_length_le
  simp

theorem jsSubarray_mid (l : List Nat) (s e : Nat) (hse : s ≤ e)
    (hle : e ≤ l.length) :
    jsSubarray l (s : Int) (e : Int) = (l.drop s).take (e - s) := by
  unfold jsSubarray
  rw [jsIndex_nonneg_le _ _ (by omega) (by omega),
    jsIndex_nonneg_le _ _ (by omega) (by omega)]
  simp

/-- The code's doubly-truncated remainder `((a % 16) + 16) % 16` (JS `%`)
equals the mathematical modulus. -/
theorem jsRem_mod16 (a : Int) : jsRem (jsRem a 16 + 16) 16 = a % 16 := by
  unfold jsRem
  split
  · split
    · omega
    · omega
  · split
    · omega
    · omega

/-! ## Claim theorems: pure codec -/

/-- C3: PKCS7 unpadding of a decrypted AES segment fails if and only if the
segment is empty, its last byte `padLen` is 0, `padLen` exceeds 16, `padLen`
exceeds the segment length, or one of the last `padLen` bytes differs from
`padLen`; on success the result is the segment with its last `padLen` bytes
removed. -/
theorem strictRemovePadding_fails_iff (data : Bytes) :
    ((strictRemovePadding data).isOk = false ↔
      data = [] ∨ data.getLast?.getD 0 = 0 ∨ 16 < data.getLast?.getD 0 ∨
      data.length < data.getLast?.getD 0 ∨
      ∃ b ∈ data.drop (data.length - data.getLast?.getD 0),
        b ≠ data.getLast?.getD 0) ∧
    (∀ out, strictRemovePadding data = .ok out →
      out = data.take (data.length - data.getLast?.getD 0)) := by
  by_cases h0 : data.length = 0
  · have hnil : data = [] := List.length_eq_zero.mp h0
    subst hnil
    constructor
    · simp [strictRemovePadding, Except.isOk, Except.toBool]
    · intro out hout
      simp [strictRemovePadding] at hout
  · by_cases h1 : data.getLast?.getD 0 = 0 ∨ data.getLast?.getD 0 > 16 ∨
        data.getLast?.getD 0 > data.length
    · have herr : strictRemovePadding data = .error "PKCS7 填充长度非法" := by
        simp only [strictRemovePadding]
        rw [if_neg h0, if_pos h1]
      rw [herr]
      constructor
      · simp only [Except.isOk, Except.toBool]
        constructor
        · intro _
          rcases h1 with h | h | h
          · exact Or.inr (Or.inl h)
          · exact Or.inr (Or.inr (Or.inl h))
          · exact Or.inr (Or.inr (Or.inr (Or.inl h)))
        · intro _; trivial
      · intro out hout
        simp at hout
    · by_cases h2 : ((data.drop (data.length - data.getLast?.getD 0)).all
          (· = data.getLast?.getD 0) = true)
      · have hok : strictRemovePadding data =
            .ok (data.take (data.length - data.getLast?.getD 0)) := by
          simp only [strictRemovePadding]
          rw [if_neg h0, if_neg h1, if_pos h2]
        rw [hok]
        push_neg at h1
        simp only [List.all_eq_true, decide_eq_true_eq] at h2
        constructor
        · simp only [Except.isOk, Except.toBool]
          constructor
          · intro h
            exact absurd h (by simp)
          · intro h
            rcases h with h | h | h | h | ⟨b, hb, hne⟩
            · exact (h0 (by simp [h])).elim
            · exact absurd h h1.1
            · exact absurd h (by omega)
            · exact absurd h (by omega)
            · exact (hne (h2 b hb)).elim
        · intro out hout
          simp only [Except.ok.injEq] at hout
          exact hout.symm
      · have herr : strictRemovePadding data = .error "PKCS7 填充内容非法" := by
          simp only [strictRemovePadding]
          rw [if_neg h0, if_neg h1, if_neg h2]
        rw [herr]
        constructor
        · simp only [Except.isOk, Except.toBool]
          constructor
          · intro _
            simp only [List.all_eq_true, decide_eq_true_eq] at h2
            push_neg at h2
            obtain ⟨b, hb, hne⟩ := h2
            exact Or.inr (Or.inr (Or.inr (Or.inr ⟨b, hb, hne⟩)))
          · intro _; trivial
        · intro out hout
          simp at hout

/-- C4: the legacy plain-XOR decode is an involution — applying it twice with
the same key returns the input unchanged — and each application preserves the
length.  (`decryptDatV3` is a total function: the code has no failure branch at
all, so in particular it has no failure mode besides — vacuously — empty
input.) -/
theorem decryptDatV3_involutive (data : Bytes) (k : Nat)
    (hdata : ∀ b ∈ data, b < 256) :
    decryptDatV3 (decryptDatV3 data k) k = data ∧
    (decryptDatV3 data k).length = data.length := by
  constructor
  · have main : ∀ l : Bytes, (∀ b ∈ l, b < 256) →
        decryptDatV3 (decryptDatV3 l k) k = l := by
      intro l
      induction l with
      | nil => intro _; rfl
      | cons b bs ih =>
        intro h
        simp only [decryptDatV3, List.map_cons, List.cons.injEq]
        refine ⟨xor_byte_involutive b k (h b (List.mem_cons_self b bs)), ?_⟩
        exact ih (fun x hx => h x (List.mem_cons_of_mem b hx))
    exact main data hdata
  · simp [decryptDatV3]

/-- Witness for C3 at concrete segments: a valid padding of length 2 is
removed; a segment whose last byte is 0 is rejected. -/
theorem strictRemovePadding_fails_iff_witness :
    ([1] : Bytes) =
      [1, 2, 2].take (([1, 2, 2] : Bytes).length - ([1, 2, 2] : Bytes).getLast?.getD 0) ∧
    (strictRemovePadding [7, 0]).isOk = false := by
  refine ⟨(strictRemovePadding_fails_iff [1, 2, 2]).2 [1] (by decide), ?_⟩
  exact (strictRemovePadding_fails_iff [7, 0]).1.mpr
    (Or.inr (Or.inl (by decide)))

/-- Witness for C4 at a concrete byte string and key. -/
theorem decryptDatV3_involutive_witness :
    decryptDatV3 (decryptDatV3 [0, 127, 255] 90) 90 = [0, 127, 255] ∧
    (decryptDatV3 [0, 127, 255] 90).length = 3 := by
  have h := decryptDatV3_involutive [0, 127, 255] 90 (by decide)
  exact ⟨h.1, h.2.trans (by decide)⟩

/-- The built-in 16-byte AES key used by the fixed-key variant. -/
def builtinV1Key : Bytes := (defaultV1AesKey.map (fun c => c.toNat % 256)).take 16

/-- C2: `decryptDatAuto` dispatches solely on the first 6 bytes: the fixed-key
magic decodes hybrid with the built-in key, ignoring any caller-supplied key;
the configurable-key magic decodes hybrid with the caller-supplied key and
fails when none, or one not of 16 bytes, is supplied; any other prefix
(including every input shorter than 6 bytes, whose 6-byte prefix cannot equal
either magic) is decoded as legacy plain XOR. -/
theorem decryptDatAuto_dispatch (f : Bytes → Bytes → Bytes) (bytes : Bytes)
    (xorKey : Nat) :
    (bytes.take 6 = fixedKeyMagic →
      ∀ k : Option Bytes, decryptDatAuto f bytes xorKey k =
        decryptDatV4 f bytes xorKey builtinV1Key) ∧
    (bytes.take 6 = configKeyMagic →
      decryptDatAuto f bytes xorKey none = .error "V4版本需要16字节AES密钥" ∧
      (∀ k : Bytes, k.length ≠ 16 →
        decryptDatAuto f bytes xorKey (some k) = .error "V4版本需要16字节AES密钥") ∧
      (∀ k : Bytes, k.length = 16 →
        decryptDatAuto f bytes xorKey (some k) = decryptDatV4 f bytes xorKey k)) ∧
    (bytes.take 6 ≠ fixedKeyMagic → bytes.take 6 ≠ configKeyMagic →
      ∀ k : Option Bytes,
        decryptDatAuto f bytes xorKey k = .ok (decryptDatV3 bytes xorKey)) := by
  have hkey : asciiKey16 defaultV1AesKey = .ok builtinV1Key := by decide
  refine ⟨?_, ?_, ?_⟩
  · intro hm k
    have hlen : ¬ bytes.length < 6 := by
      intro h
      have h6 := congrArg List.length hm
      rw [List.length_take] at h6
      simp only [fixedKeyMagic, List.length_cons, List.length_nil] at h6
      omega
    have hv : getDatVersion bytes = 1 := by
      simp [getDatVersion, hlen, hm]
    simp only [decryptDatAuto, hv, hkey]
    rfl
  · intro hm
    have hlen : ¬ bytes.length < 6 := by
      intro h
      have h6 := congrArg List.length hm
      rw [List.length_take] at h6
      simp only [configKeyMagic, List.length_cons, List.length_nil] at h6
      omega
    have hne : ¬ (configKeyMagic = fixedKeyMagic) := by decide
    have hv : getDatVersion bytes = 2 := by
      simp [getDatVersion, hlen, hm, hne]
    refine ⟨by simp [decryptDatAuto, hv], ?_, ?_⟩
    · intro k hk
      simp [decryptDatAuto, hv, hk]
    · intro k hk
      simp [decryptDatAuto, hv, hk]
  · intro h1 h2 k
    have hv : getDatVersion bytes = 0 := by
      by_cases hlen : bytes.length < 6
      · simp [getDatVersion, hlen]
      · simp [getDatVersion, hlen, h1, h2]
    simp [decryptDatAuto, hv]

/-- C1 (amended): inputs shorter than 15 bytes fail with the malformed-container
error; and for every input of at least 15 bytes whose signed little-endian
`aesSize` field (header offset 6) is nonnegative, the hybrid decoder behaves
exactly as the specification describes it (`decodeHybridSpec`): 15-byte
header/payload split, AES segment of length `aesSize + (16 − aesSize mod 16)`
taken from the front of the payload — an expression that adds a full 16-byte
block when `aesSize` is a multiple of 16 — failure when that aligned length
exceeds the payload length, and on success the unpadded AES plaintext followed
by the untouched raw region and the XOR-decoded tail.  (For a negative
`aesSize` field the two differ; see the counterexample.) -/
theorem decryptDatV4_matches_spec (f : Bytes → Bytes → Bytes) (bytes : Bytes)
    (xorKey : Nat) (aesKey : Bytes) :
    (bytes.length < 15 →
      decryptDatV4 f bytes xorKey aesKey = .error "文件太小，无法解析") ∧
    (∀ v : Int, 15 ≤ bytes.length →
      bytesToInt32 ((bytes.take 15).drop 6 |>.take 4) = .ok v → 0 ≤ v →
      decryptDatV4 f bytes xorKey aesKey = decodeHybridSpec f bytes xorKey aesKey ∧
      ((16 : Int) ∣ v → v + (16 - v % 16) = v + 16)) := by
  constructor
  · intro h
    simp only [decryptDatV4, if_pos h]
  · intro v h15 hv hv0
    refine ⟨?_, fun hdvd => by obtain ⟨c, hc⟩ := hdvd; omega⟩
    have hne : ¬ bytes.length < 15 := by omega
    have hheader : jsSubarray bytes 0 15 = bytes.take 15 := by
      have h := jsSubarray_eq_take bytes 15 (by norm_num) (by exact_mod_cast h15)
      simpa using h
    have htlen : (bytes.take 15).length = 15 := by
      simp [List.length_take]; omega
    have hslice1 : jsSubarray (bytes.take 15) 6 10 =
        ((bytes.take 15).drop 6).take 4 := by
      have h := jsSubarray_mid (bytes.take 15) 6 10 (by omega) (by omega)
      simpa using h
    have hslice2 : jsSubarray (bytes.take 15) 10 14 =
        ((bytes.take 15).drop 10).take 4 := by
      have h := jsSubarray_mid (bytes.take 15) 10 14 (by omega) (by omega)
      simpa using h
    have hlen4 : (((bytes.take 15).drop 10).take 4).length = 4 := by
      simp [List.length_take, List.length_drop]; omega
    obtain ⟨w, hw⟩ : ∃ w, bytesToInt32 (((bytes.take 15).drop 10).take 4) =
        .ok w := by
      unfold bytesToInt32
      rw [if_pos hlen4]
      exact ⟨_, rfl⟩
    simp only [decryptDatV4, decodeHybridSpec, if_neg hne, hheader, hslice1,
      hslice2, hv, hw, jsRem_mod16]
    set data := bytes.drop 15 with hdata
    set a : Int := v + (16 - v % 16) with halign
    have ha0 : 0 < a := by
      have := Int.emod_nonneg v (by norm_num : (16:Int) ≠ 0)
      have := Int.emod_lt_of_pos v (by norm_num : (0:Int) < 16)
      omega
    by_cases hguard : a > (data.length : Int)
    · rw [if_pos hguard, if_pos hguard]
    · rw [if_neg hguard, if_neg hguard]
      have hale : a ≤ (data.length : Int) := by omega
      have haes : jsSubarray data 0 a = data.take a.toNat :=
        jsSubarray_eq_take data a (by omega) hale
      have hremn : jsSubarrayFrom data a = data.drop a.toNat :=
        jsSubarrayFrom_eq_drop data a (by omega) hale
      rw [haes, hremn]
      set seg := data.take a.toNat with hseg
      set rem := data.drop a.toNat with hrem
      cases hup : (if seg.length > 0 then
          if aesKey.length ≠ 16 then .error "Invalid key length"
          else if seg.length % 16 ≠ 0 then .error "wrong final block length"
          else strictRemovePadding (f aesKey seg)
        else (.ok [] : Except String Bytes)) with
      | error e => rfl
      | ok unpadded =>
        simp only []
        by_cases hxg : w < 0 ∨ w > (rem.length : Int)
        · rw [if_pos hxg, if_pos hxg]
        · rw [if_neg hxg, if_neg hxg]
          push_neg at hxg
          by_cases hxp : w > 0
          · rw [if_pos hxp, if_pos hxp]
            have hrl0 : ¬ ((rem.length : Int) - w < 0) := by omega
            rw [if_neg hrl0]
            have hraw : jsSubarray rem 0 ((rem.length : Int) - w) =
                rem.take (rem.length - w.toNat) := by
              rw [jsSubarray_eq_take rem _ (by omega) (by omega)]
              congr 1
              omega
            have hxord : jsSubarrayFrom rem ((rem.length : Int) - w) =
                rem.drop (rem.length - w.toNat) := by
              rw [jsSubarrayFrom_eq_drop rem _ (by omega) (by omega)]
              congr 1
              omega
            rw [hraw, hxord]
          · rw [if_neg hxp, if_neg hxp]

/-- Witness for C1 at a concrete well-formed container: 15-byte header with
`aesSize = 0`, `xorSize = 2`, payload of one padding-only AES block and three
trailing bytes; the code and the specification account agree. -/
theorem decryptDatV4_matches_spec_witness :
    decryptDatV4 (fun _ d => d)
        ([0, 0, 0, 0, 0, 0, 0, 0, 0, 0, 2, 0, 0, 0, 0] ++
          List.replicate 16 16 ++ [5, 6, 7]) 1 (List.replicate 16 0) =
      decodeHybridSpec (fun _ d => d)
        ([0, 0, 0, 0, 0, 0, 0, 0, 0, 0, 2, 0, 0, 0, 0] ++
          List.replicate 16 16 ++ [5, 6, 7]) 1 (List.replicate 16 0) ∧
    decryptDatV4 (fun _ d => d)
        ([0, 0, 0, 0, 0, 0, 0, 0, 0, 0, 2, 0, 0, 0, 0] ++
          List.replicate 16 16 ++ [5, 6, 7]) 1 (List.replicate 16 0) =
      .ok [5, 7, 6] := by
  refine ⟨((decryptDatV4_matches_spec (fun _ d => d)
    ([0, 0, 0, 0, 0, 0, 0, 0, 0, 0, 2, 0, 0, 0, 0] ++
      List.replicate 16 16 ++ [5, 6, 7]) 1 (List.replicate 16 0)).2 0
    (by decide) (by decide) (by decide)).1, by decide⟩

/-- Counterexample to C1 as stated: a container whose signed `aesSize` field is
−32 (bytes `e0 ff ff ff`), with a 40-byte payload.  The stated aligned length
is −16, which does not exceed the payload length, and the stated AES segment
is empty, so the claim predicts success with the whole 40-byte payload; the
code, however, computes `subarray(0, −16)` — JavaScript negative indexing —
obtaining a 24-byte segment, and fails in the cipher because 24 is not a
multiple of the block size. -/
theorem decryptDatV4_negative_aesSize_counterexample :
    decodeHybridSpec (fun _ d => d)
        ([0, 0, 0, 0, 0, 0, 224, 255, 255, 255, 0, 0, 0, 0, 0] ++
          (List.range 40).map (fun i => 100 + i)) 0 (List.replicate 16 0) =
      .ok ((List.range 40).map (fun i => 100 + i)) ∧
    decryptDatV4 (fun _ d => d)
        ([0, 0, 0, 0, 0, 0, 224, 255, 255, 255, 0, 0, 0, 0, 0] ++
          (List.range 40).map (fun i => 100 + i)) 0 (List.replicate 16 0) =
      .error "wrong final block length" := by
  constructor
  · decide
  · decide

/-- Witness for C2 at concrete inputs: the configurable-key magic without a
key fails, and the fixed-key magic ignores a caller-supplied key. -/
theorem decryptDatAuto_dispatch_witness :
    decryptDatAuto (fun _ d => d) configKeyMagic 7 none =
      .error "V4版本需要16字节AES密钥" ∧
    decryptDatAuto (fun _ d => d) fixedKeyMagic 7 (some [1]) =
      decryptDatV4 (fun _ d => d) fixedKeyMagic 7 builtinV1Key := by
  refine ⟨((decryptDatAuto_dispatch (fun _ d => d) configKeyMagic 7).2.1
    (by decide)).1, ?_⟩
  exact (decryptDatAuto_dispatch (fun _ d => d) fixedKeyMagic 7).1
    (by decide) (some [1])

/-! ## Filename heuristics (source lines 388-390, 591-641, 1030-1033)

JavaScript strings are `List Char`; paths use `/` as the separator. -/

/-- `s.toLowerCase()`. -/
def toLowerStr (s : Str) : Str := s.map Char.toLower

/-- The character class `[a-z]`. -/
def isLowerAlpha (c : Char) : Bool := 'a' ≤ c && c ≤ 'z'

/-- The character class `[a-fA-F0-9]`. -/
def isHexDigit (c : Char) : Bool :=
  ('0' ≤ c && c ≤ '9') || ('a' ≤ c && c ≤ 'f') || ('A' ≤ c && c ≤ 'F')

/-- `looksLikeMd5` (source lines 388-390): `/^[a-fA-F0-9]{16,32}$/`. -/
def looksLikeMd5 (s : Str) : Bool :=
  16 ≤ s.length && s.length ≤ 32 && s.all isHexDigit

/-- `s.slice(0, -n)`. -/
def dropLastN (s : Str) (n : Nat) : Str := s.take (s.length - n)

/-- `/[._][a-z]$/` — a one-letter variant suffix at the end of a base name.
This is the shared body of `hasXVariant` (line 612) and
`hasImageVariantSuffix` (line 624), which are textually identical. -/
def hasVariantTail (s : Str) : Bool :=
  match s.reverse with
  | c :: p :: _ => (p = '.' || p = '_') && isLowerAlpha c
  | _ => false

/-- `isLikelyImageDatBase` (source lines 628-630). -/
def isLikelyImageDatBase (baseLower : Str) : Bool :=
  hasVariantTail baseLower || looksLikeMd5 baseLower

/-- `l.includes(p)` — substring containment. -/
def containsSeq (l p : Str) : Bool := l.tails.any (p.isPrefixOf ·)

/-- The strip-variant-suffix loop of `normalizeDatBase` (lines 637-639); the
fuel is the string length, which bounds the iteration count. -/
def stripVariantsFuel : Nat → Str → Str
  | 0, s => s
  | n + 1, s =>
    if hasVariantTail s then stripVariantsFuel n (dropLastN s 2) else s

/-- `normalizeDatBase` (source lines 632-641): lowercase, strip a trailing
`.dat`/`.jpg`, then repeatedly strip two-character variant suffixes. -/
def normalizeDatBase (name : Str) : Str :=
  let base := toLowerStr name
  let base :=
    if ".dat".toList.isSuffixOf base || ".jpg".toList.isSuffixOf base then
      dropLastN base 4
    else base
  stripVariantsFuel base.length base

/-- `isThumbnailDat` (source lines 608-610). -/
def isThumbnailDat (fileName : Str) : Bool :=
  containsSeq fileName ".t.dat".toList || containsSeq fileName "_t.dat".toList

/-- `path.basename` for `/`-separated paths. -/
def basenameStr (p : Str) : Str :=
  (p.reverse.takeWhile (fun c => c ≠ '/')).reverse

/-- `path.extname`: the suffix from the last `.` of the base name, unless that
dot is the base name's first character or there is no dot. -/
def extnameStr (p : Str) : Str :=
  let b := basenameStr p
  let e := b.reverse.takeWhile (fun c => c ≠ '.')
  if e.length + 1 < b.length then '.' :: e.reverse else []

/-- `isThumbnailPath` (source lines 616-622). -/
def isThumbnailPath (filePath : Str) : Bool :=
  let lower := toLowerStr (basenameStr filePath)
  if isThumbnailDat lower then true
  else
    let ext := extnameStr lower
    let base := if ext ≠ [] then dropLastN lower ext.length else lower
    "_t".toList.isSuffixOf base

/-- The regular expression `^<datName>([._][a-z])?\.dat$` of
`matchesDatName` (line 597), for a target without regex metacharacters (the
targets used by the service are lowercased hashes and file base names). -/
def suffixPatternMatch (lower target : Str) : Bool :=
  target.isPrefixOf lower &&
    (let rest := lower.drop target.length
     rest = ".dat".toList ||
       (match rest with
        | sep :: c :: tail =>
          (sep = '.' || sep = '_') && isLowerAlpha c && tail = ".dat".toList
        | _ => false))

/-- `matchesDatName` (source lines 591-600): normalized-base equality, then
the suffix-tolerant pattern, then substring containment as a last resort. -/
def matchesDatName (fileName datName : Str) : Bool :=
  let lower := toLowerStr fileName
  let base := if ".dat".toList.isSuffixOf lower then dropLastN lower 4 else lower
  let normalizedBase := normalizeDatBase base
  let normalizedTarget := normalizeDatBase (toLowerStr datName)
  if normalizedBase = normalizedTarget then true
  else if suffixPatternMatch lower datName then true
  else ".dat".toList.isSuffixOf lower && containsSeq lower datName

/-- `scoreDatName` (source lines 602-606). -/
def scoreDatName (fileName : Str) : Nat :=
  if containsSeq fileName ".t.dat".toList || containsSeq fileName "_t.dat".toList then 1
  else if containsSeq fileName ".c.dat".toList || containsSeq fileName "_c.dat".toList then 1
  else 2

/-- `isImageFile` (source lines 1030-1033). -/
def isImageFile (filePath : Str) : Bool :=
  let ext := toLowerStr (extnameStr filePath)
  ext = ".gif".toList || ext = ".png".toList || ext = ".jpg".toList ||
    ext = ".jpeg".toList || ext = ".webp".toList

/-- `path.join a b` for the model's `/`-separated paths. -/
def joinPath (a b : Str) : Str := a ++ '/' :: b

/-! ## ContainerSearch: the bounded walk (source lines 486-550)

The walk's stack traversal visits a depth-bounded set of files; the model
receives that visited set as a list of `(directory, fileName)` pairs in
traversal order and applies the per-candidate logic of lines 518-549
verbatim.  `walkForDatInWorker` (lines 552-589) runs the same walk in a
worker thread and returns its single result; it is modelled synchronously. -/

structure WalkCandidate where
  score : Nat
  path : Str
  isThumb : Bool
  hasX : Bool

/-- The per-entry acceptance tests of `walkForDat` (source lines 518-526). -/
def walkEntryAccept (datName : Str) (allowThumbnail thumbOnly : Bool)
    (entry : Str) : Bool :=
  let lower := toLowerStr entry
  ".dat".toList.isSuffixOf lower &&
  isLikelyImageDatBase (dropLastN lower 4) &&
  hasVariantTail (dropLastN lower 4) &&
  matchesDatName lower datName &&
  (allowThumbnail || !isThumbnailDat lower) &&
  (!thumbOnly || isThumbnailDat lower)

/-- Candidate records collected by the walk (source lines 527-533). -/
def walkCandidates (files : List (Str × Str)) (datName : Str)
    (allowThumbnail thumbOnly : Bool) : List WalkCandidate :=
  files.filterMap (fun df =>
    let lower := toLowerStr df.2
    if walkEntryAccept datName allowThumbnail thumbOnly df.2 then
      some { score := scoreDatName lower, path := joinPath df.1 df.2,
             isThumb := isThumbnailDat lower,
             hasX := hasVariantTail (dropLastN lower 4) }
    else none)

/-- Pool selection and strict-max scoring of `walkForDat`
(source lines 536-549). -/
def pickBestCandidate (thumbOnly : Bool) (candidates : List WalkCandidate) :
    Option Str :=
  if candidates.isEmpty then none
  else
    let withX := candidates.filter (·.hasX)
    let basePool := if withX.isEmpty then candidates else withX
    let nonThumb := basePool.filter (fun c => !c.isThumb)
    let finalPool :=
      if thumbOnly then basePool
      else if nonThumb.isEmpty then basePool else nonThumb
    (finalPool.foldl (fun best item =>
      match best with
      | none => some item
      | some b => if item.score > b.score then some item else some b) none).map
      (·.path)

/-- `walkForDat` (source lines 486-550) over the visited-file list. -/
def walkForDat (files : List (Str × Str)) (datName : Str)
    (allowThumbnail thumbOnly : Bool) : Option Str :=
  pickBestCandidate thumbOnly (walkCandidates files datName allowThumbnail thumbOnly)

/-! ## OutputCache state and environment -/

/-- The process-wide `resolvedCache : Map<string, string>`; an association
list where a prepended entry shadows older ones (JavaScript `Map.set`). -/
abbrev PathMap := List (Str × Str)

/-- `Map.get`. -/
def alookup : PathMap → Str → Option Str
  | [], _ => none
  | (k', v) :: rest, k => if k' = k then some v else alookup rest k

/-- `Map.set`. -/
def aset (m : PathMap) (k v : Str) : PathMap := (k, v) :: m

/-- `Map.delete`. -/
def adel (m : PathMap) (k : Str) : PathMap := m.filter (fun kv => kv.1 ≠ k)

/-- `updateFlags : Map<string, boolean>` with only `true` values ever stored:
the set of flagged keys. -/
def flagDel (fl : List Str) (k : Str) : List Str := fl.filter (fun x => x ≠ k)

/-- The configuration collaborator (`ConfigService`), read-only here. -/
structure Config where
  myWxid : Option Str
  dbPath : Option Str
  imageXorKey : Option Nat
  imageAesKey : Option Str
  cachePath : Option Str

/-- The external world of one run: filesystem and collaborator oracles, all
deterministic for the duration of a call.  `resolveAccount` stands for
`resolveAccountDir` (lines 196-219) and `hardlink` for `resolveHardlinkPath`
(lines 392-433); both swallow their internal errors in the source and so are
total.  `attachFiles root` is the set of files the bounded walk visits under
`root`, in traversal order. -/
structure Env where
  fsExists : Str → Bool
  readFile : Str → Option Bytes
  readdir : Str → Option (List Str)
  isFileOk : Str → Option Bool
  mkdirOk : Bool
  documentsPath : Str
  resolveAccount : Option Str
  hardlink : Str → Option Str → Option Str
  attachFiles : Str → List (Str × Str)
  writeOk : Bool
  aesDecrypt : Bytes → Bytes → Bytes

/-- The service's mutable state (fields of `ImageDecryptService`). -/
structure ServiceState where
  resolvedCache : PathMap
  updateFlags : List Str
  cacheIndexed : Bool
deriving DecidableEq

/-- The image extensions probed by the output cache (lines 647, 797). -/
def imageExtensions : List Str :=
  [".jpg".toList, ".jpeg".toList, ".png".toList, ".gif".toList, ".webp".toList]

/-- `getCacheRoot` (source lines 835-844): resolve the cache directory and
create it if absent; a `mkdirSync` failure throws. -/
def getCacheRoot (env : Env) (cfg : Config) : Except String Str :=
  let root :=
    match cfg.cachePath with
    | some c =>
      if c = [] then
        joinPath (joinPath env.documentsPath "WeFlow".toList) "Images".toList
      else joinPath c "Images".toList
    | none => joinPath (joinPath env.documentsPath "WeFlow".toList) "Images".toList
  if env.fsExists root then .ok root
  else if env.mkdirOk then .ok root
  else .error "EACCES: mkdir failed"

/-- `addCacheIndex` (source lines 822-831): never overwrite an existing
non-thumbnail entry with a thumbnail-classified file. -/
def addCacheIndex (cache : PathMap) (key path : Str) : PathMap :=
  let normalizedKey := toLowerStr key
  match alookup cache normalizedKey with
  | some existing =>
    if !isThumbnailPath existing && isThumbnailPath path then cache
    else aset cache normalizedKey path
  | none => aset cache normalizedKey path

/-- One iteration of the startup indexing loop (source lines 798-814). -/
def indexCacheEntry (env : Env) (root : Str) (cache : PathMap) (entry : Str) :
    PathMap :=
  let lower := toLowerStr entry
  match imageExtensions.find? (fun e => e.isSuffixOf lower) with
  | none => cache
  | some ext =>
    let fullPath := joinPath root entry
    match env.isFileOk fullPath with
    | none => cache
    | some false => cache
    | some true =>
      let base := dropLastN entry ext.length
      let cache := addCacheIndex cache base fullPath
      let normalized := normalizeDatBase base
      if normalized ≠ [] && normalized ≠ toLowerStr base then
        addCacheIndex cache normalized fullPath
      else cache

/-- `ensureCacheIndexed` (source lines 783-820).  `getCacheRoot` runs inside
the promise executor before any `try`; its throw rejects the promise, which
the public callers `await` bare — modelled as the `.error` outcome.  A
`readdirSync` failure is caught and leaves the cache marked indexed. -/
def ensureCacheIndexed (env : Env) (cfg : Config) (st : ServiceState) :
    Except String ServiceState :=
  if st.cacheIndexed then .ok st
  else
    match getCacheRoot env cfg with
    | .error e => .error e
    | .ok root =>
      match env.readdir root with
      | none => .ok { st with cacheIndexed := true }
      | some entries =>
        .ok { st with
              cacheIndexed := true
              resolvedCache := entries.foldl (indexCacheEntry env root) st.resolvedCache }

/-- `/_[a-z]$/`. -/
def tailUnderscoreAlpha (s : Str) : Bool :=
  match s.reverse with
  | c :: p :: _ => p = '_' && isLowerAlpha c
  | _ => false

/-- `/\.[a-z]$/`. -/
def tailDotAlpha (s : Str) : Bool :=
  match s.reverse with
  | c :: p :: _ => p = '.' && isLowerAlpha c
  | _ => false

/-- The directory-scan loop of `findCachedOutput` (source lines 662-671). -/
def findCachedOutputScan (root lowerKey : Str) : List Str → Option Str
  | [] => none
  | entry :: rest =>
    let lower := toLowerStr entry
    match imageExtensions.find? (fun item => item.isSuffixOf lower) with
    | none => findCachedOutputScan root lowerKey rest
    | some ext =>
      let base := dropLastN lower ext.length
      if base = lowerKey then some (joinPath root entry)
      else if (lowerKey ++ ['_']).isPrefixOf base && tailUnderscoreAlpha base then
        some (joinPath root entry)
      else if (lowerKey ++ ['.']).isPrefixOf base && tailDotAlpha base then
        some (joinPath root entry)
      else findCachedOutputScan root lowerKey rest

/-- `findCachedOutput` (source lines 645-673): probe `<key><ext>` then
`<key>_t<ext>` for each extension, then scan the cache directory.  It calls
`getCacheRoot`, whose failure propagates to the caller. -/
def findCachedOutput (env : Env) (cfg : Config) (cacheKey : Str) :
    Except String (Option Str) :=
  match getCacheRoot env cfg with
  | .error e => .error e
  | .ok root =>
    match imageExtensions.find?
        (fun ext => env.fsExists (joinPath root (cacheKey ++ ext))) with
    | some ext => .ok (some (joinPath root (cacheKey ++ ext)))
    | none =>
      match imageExtensions.find?
          (fun ext => env.fsExists (joinPath root (cacheKey ++ "_t".toList ++ ext))) with
      | some ext => .ok (some (joinPath root (cacheKey ++ "_t".toList ++ ext)))
      | none =>
        match env.readdir root with
        | none => .ok none
        | some entries => .ok (findCachedOutputScan root (toLowerStr cacheKey) entries)

/-- `cacheResolvedPaths` (source lines 682-690): unconditionally map the cache
key and its md5/datName aliases to the output path. -/
def cacheResolvedPaths (cache : PathMap) (cacheKey : Str)
    (imageMd5 imageDatName : Option Str) (outputPath : Str) : PathMap :=
  let cache := aset cache cacheKey outputPath
  let cache :=
    match imageMd5 with
    | some m => if m ≠ cacheKey then aset cache m outputPath else cache
    | none => cache
  match imageDatName with
  | some d =>
    if d ≠ cacheKey && some d ≠ imageMd5 then aset cache d outputPath else cache
  | none => cache

/-- `getCacheKeys` (source lines 692-707). -/
def addKeyAux (keys : List Str) (value : Option Str) : List Str :=
  match value with
  | none => keys
  | some v =>
    if v = [] then keys
    else
      let keys := if v ∈ keys then keys else keys ++ [v]
      let lower := toLowerStr v
      let keys := if lower ∈ keys then keys else keys ++ [lower]
      let normalized := normalizeDatBase lower
      if normalized ≠ [] && normalized ∉ keys then keys ++ [normalized] else keys

/-- `getCacheKeys` (source lines 692-707): raw, lowercased and normalized
variants of the md5 and the datName. -/
def getCacheKeys (imageMd5 imageDatName : Option Str) : List Str :=
  let keys := addKeyAux [] imageMd5
  if imageDatName ≠ none && imageDatName ≠ imageMd5 then addKeyAux keys imageDatName
  else keys

/-- `clearUpdateFlags` (source lines 718-722). -/
def clearUpdateFlags (flags : List Str) (cacheKey : Str)
    (imageMd5 imageDatName : Option Str) : List Str :=
  let flags := flagDel flags cacheKey
  let flags := match imageMd5 with | some m => flagDel flags m | none => flags
  match imageDatName with | some d => flagDel flags d | none => flags

/-- `cacheDatPath` (source lines 709-716): remember a found container path
under `accountDir|datName` keys. -/
def cacheDatPath (cache : PathMap) (accountDir datName datPath : Str) : PathMap :=
  let key := accountDir ++ '|' :: datName
  let cache := aset cache key datPath
  let normalized := normalizeDatBase datName
  if normalized ≠ [] && normalized ≠ toLowerStr datName then
    aset cache (accountDir ++ '|' :: normalized) datPath
  else cache

/-- `searchDatFile` (source lines 455-475): search-result cache keyed by
`accountDir|datName` (filtered by the thumbnail policy), then the off-thread
bounded walk under `<accountDir>/msg/attach`. -/
def searchDatFile (env : Env) (cache : PathMap) (accountDir datName : Str)
    (allowThumbnail thumbOnly : Bool) : Option Str × PathMap :=
  let key := accountDir ++ '|' :: datName
  let cachedHit : Option Str :=
    match alookup cache key with
    | some cached =>
      if env.fsExists cached && (allowThumbnail || !isThumbnailPath cached) then
        some cached
      else none
    | none => none
  match cachedHit with
  | some c => (some c, cache)
  | none =>
    let root := joinPath (joinPath accountDir "msg".toList) "attach".toList
    if !env.fsExists root then (none, cache)
    else
      match walkForDat (env.attachFiles root) (toLowerStr datName)
          allowThumbnail thumbOnly with
      | some found => (some found, aset cache key found)
      | none => (none, cache)

/-- The datName search stage of `resolveDatPath` (source lines 294-309). -/
def resolveDatPathSearch (env : Env) (cache : PathMap) (accountDir dn : Str)
    (allowThumbnail : Bool) : Option Str × PathMap :=
  let (datPath, cache) := searchDatFile env cache accountDir dn allowThumbnail false
  match datPath with
  | some p =>
    let cache := aset cache dn p
    let cache := cacheDatPath cache accountDir dn p
    (some p, cache)
  | none =>
    let normalized := normalizeDatBase dn
    if normalized ≠ toLowerStr dn then
      let (np, cache) := searchDatFile env cache accountDir normalized allowThumbnail false
      match np with
      | some p =>
        let cache := aset cache dn p
        let cache := cacheDatPath cache accountDir dn p
        (some p, cache)
      | none => (none, cache)
    else (none, cache)

/-- The datName stages of `resolveDatPath` (source lines 286-309): optional
resolved-cache lookup, then the filesystem search. -/
def resolveDatPathTail (env : Env) (cache : PathMap) (accountDir : Str)
    (imageDatName : Option Str) (allowThumbnail skipResolvedCache : Bool) :
    Option Str × PathMap :=
  match imageDatName with
  | none => (none, cache)
  | some dn =>
    let cachedHit : Option Str :=
      if skipResolvedCache then none
      else
        match alookup cache dn with
        | some cached =>
          if env.fsExists cached && (allowThumbnail || !isThumbnailPath cached) then
            some cached
          else none
        | none => none
    match cachedHit with
    | some c => (some c, cache)
    | none => resolveDatPathSearch env cache accountDir dn allowThumbnail

/-- `resolveDatPath` (source lines 254-310): hardlink lookup by md5 (or by a
hash-shaped datName when no md5 is given), filtered by the thumbnail policy;
then the datName stages. -/
def resolveDatPath (env : Env) (cache : PathMap) (accountDir : Str)
    (imageMd5 imageDatName sessionId : Option Str)
    (allowThumbnail skipResolvedCache : Bool) : Option Str × PathMap :=
  match imageMd5 with
  | some md5 =>
    (match env.hardlink md5 sessionId with
     | some p =>
       if allowThumbnail || !isThumbnailPath p then
         let cache := cacheDatPath cache accountDir md5 p
         let cache :=
           match imageDatName with
           | some dn => cacheDatPath cache accountDir dn p
           | none => cache
         (some p, cache)
       else resolveDatPathTail env cache accountDir imageDatName allowThumbnail skipResolvedCache
     | none => resolveDatPathTail env cache accountDir imageDatName allowThumbnail skipResolvedCache)
  | none =>
    match imageDatName with
    | some dn =>
      if looksLikeMd5 dn then
        match env.hardlink dn sessionId with
        | some p =>
          if allowThumbnail || !isThumbnailPath p then
            (some p, cacheDatPath cache accountDir dn p)
          else resolveDatPathTail env cache accountDir (some dn) allowThumbnail skipResolvedCache
        | none => resolveDatPathTail env cache accountDir (some dn) allowThumbnail skipResolvedCache
      else resolveDatPathTail env cache accountDir (some dn) allowThumbnail skipResolvedCache
    | none => (none, cache)

/-- `resolveAesKey` (source lines 846-850): an empty or absent configured key
yields no key; otherwise the key is derived via `asciiKey16`, which throws for
a non-empty string shorter than 16 characters. -/
def trimStr (s : Str) : Str :=
  ((s.dropWhile Char.isWhitespace).reverse.dropWhile Char.isWhitespace).reverse

def resolveAesKey (aesKeyRaw : Option Str) : Except String (Option Bytes) :=
  let trimmed := trimStr (aesKeyRaw.getD [])
  if trimmed = [] then .ok none
  else
    match asciiKey16 trimmed with
    | .ok k => .ok (some k)
    | .error e => .error e

/-- `decryptDatAuto` on a path (source lines 852-881): `getDatVersion` checks
existence and reads the file; the codec then runs on its bytes. -/
def decryptDatAutoFS (env : Env) (inputPath : Str) (xorKey : Nat)
    (aesKey : Option Bytes) : Except String Bytes :=
  if !env.fsExists inputPath then .error "文件不存在"
  else
    match env.readFile inputPath with
    | none => .error "EIO: read failed"
    | some bytes => decryptDatAuto env.aesDecrypt bytes xorKey aesKey

/-- `detectImageExtension` (source lines 974-984). -/
def detectImageExtension (buffer : Bytes) : Option Str :=
  if buffer.length < 12 then none
  else if buffer.getD 0 0 = 0x47 && buffer.getD 1 0 = 0x49 &&
      buffer.getD 2 0 = 0x46 then some ".gif".toList
  else if buffer.getD 0 0 = 0x89 && buffer.getD 1 0 = 0x50 &&
      buffer.getD 2 0 = 0x4e && buffer.getD 3 0 = 0x47 then some ".png".toList
  else if buffer.getD 0 0 = 0xff && buffer.getD 1 0 = 0xd8 &&
      buffer.getD 2 0 = 0xff then some ".jpg".toList
  else if buffer.getD 0 0 = 0x52 && buffer.getD 1 0 = 0x49 &&
      buffer.getD 2 0 = 0x46 && buffer.getD 3 0 = 0x46 &&
      buffer.getD 8 0 = 0x57 && buffer.getD 9 0 = 0x45 &&
      buffer.getD 10 0 = 0x42 && buffer.getD 11 0 = 0x50 then some ".webp".toList
  else none

/-- `getCacheOutputPathFromDat` (source lines 675-680). -/
def getCacheOutputPathFromDat (env : Env) (cfg : Config) (datPath ext : Str) :
    Except String Str :=
  match getCacheRoot env cfg with
  | .error e => .error e
  | .ok root =>
    let name := basenameStr datPath
    let base :=
      if ".dat".toList.isSuffixOf (toLowerStr name) then dropLastN name 4 else name
    .ok (joinPath root (base ++ ext))

/-- The result object of the public operations. -/
structure DIResult where
  success : Bool
  localPath : Option Str
  error : Option String
deriving DecidableEq

/-- A failure result, as produced by the `catch` (source lines 190-193) and
the explicit early returns. -/
def failRes (e : String) : DIResult :=
  { success := false, localPath := none, error := some e }

/-- A success result; `fileToDataUrl`/`bufferToDataUrl` embeddings and the
mtime cache-busting token of `filePathToUrl` are abstracted to the underlying
local path. -/
def okRes (p : Str) : DIResult :=
  { success := true, localPath := some p, error := none }

/-- `decryptImageInternal` (source lines 111-194) without the forced-refresh
retry, which is supplied as the `fallbackRetry` continuation (it is invoked
only when `force` is set and the strict pass found nothing but the
thumbnail-allowing pass found a container).  The whole body runs in a
`try`/`catch` returning `{success:false, error}`, so every throwing step
(`findCachedOutput`/`getCacheRoot`, `resolveAesKey`, the decoder, the file
write) is mapped to a failure result carrying its message. -/
def decryptImageInternalAux (env : Env) (cfg : Config)
    (sessionId imageMd5 imageDatName : Option Str) (cacheKey : Str)
    (force : Bool) (st : ServiceState)
    (fallbackRetry : ServiceState → DIResult × ServiceState) :
    DIResult × ServiceState :=
  if cfg.myWxid = none || cfg.dbPath = none then
    (failRes "未配置账号或数据库路径", st)
  else
    match env.resolveAccount with
    | none => (failRes "未找到账号目录", st)
    | some accountDir =>
      let r1 := resolveDatPath env st.resolvedCache accountDir imageMd5
        imageDatName sessionId (!force) force
      let st := { st with resolvedCache := r1.2 }
      match r1.1 with
      | none =>
        if force then
          let r2 := resolveDatPath env st.resolvedCache accountDir imageMd5
            imageDatName sessionId true true
          let st := { st with resolvedCache := r2.2 }
          match r2.1 with
          | some _ => fallbackRetry st
          | none => (failRes "未找到图片文件", st)
        else (failRes "未找到图片文件", st)
      | some datPath =>
        if !containsSeq (toLowerStr (extnameStr datPath)) "dat".toList then
          let st := { st with resolvedCache :=
            cacheResolvedPaths st.resolvedCache cacheKey imageMd5 imageDatName datPath }
          (okRes datPath, st)
        else
          let cachedOut : Except String (Option Str) :=
            if force then .ok none else findCachedOutput env cfg cacheKey
          match cachedOut with
          | .error e => (failRes e, st)
          | .ok (some existing) =>
            let st := { st with resolvedCache :=
              cacheResolvedPaths st.resolvedCache cacheKey imageMd5 imageDatName existing }
            (okRes existing, st)
          | .ok none =>
            match cfg.imageXorKey with
            | none => (failRes "未配置图片 XOR 密钥", st)
            | some xorKey =>
              if xorKey = 0 then (failRes "未配置图片 XOR 密钥", st)
              else
                match resolveAesKey cfg.imageAesKey with
                | .error e => (failRes e, st)
                | .ok aesKey =>
                  match decryptDatAutoFS env datPath xorKey aesKey with
                  | .error e => (failRes e, st)
                  | .ok decrypted =>
                    let ext := (detectImageExtension decrypted).getD ".jpg".toList
                    match getCacheOutputPathFromDat env cfg datPath ext with
                    | .error e => (failRes e, st)
                    | .ok outputPath =>
                      if !env.writeOk then (failRes "EIO: write failed", st)
                      else
                        let st := { st with resolvedCache :=
                          (cacheResolvedPaths st.resolvedCache cacheKey imageMd5
                            imageDatName outputPath) }
                        let st :=
                          if !isThumbnailPath datPath then
                            { st with updateFlags :=
                              clearUpdateFlags st.updateFlags cacheKey imageMd5 imageDatName }
                          else st
                        (okRes outputPath, st)

/-- `decryptImageInternal` (source lines 111-194): the forced call retries once
with `force := false` when the strict pass misses but the thumbnail-allowing
pass hits (line 144); the inner run's own retry branch is unreachable because
its `force` is false, so its continuation is a dead stub. -/
def decryptImageInternal (env : Env) (cfg : Config)
    (sessionId imageMd5 imageDatName : Option Str) (cacheKey : Str)
    (force : Bool) (st : ServiceState) : DIResult × ServiceState :=
  if force then
    decryptImageInternalAux env cfg sessionId imageMd5 imageDatName cacheKey true st
      (fun st' =>
        decryptImageInternalAux env cfg sessionId imageMd5 imageDatName cacheKey false st'
          (fun st'' => (failRes "unreachable", st'')))
  else
    decryptImageInternalAux env cfg sessionId imageMd5 imageDatName cacheKey false st
      (fun st' => (failRes "unreachable", st'))

/-- JavaScript `a || b` for optional strings (the empty string is falsy). -/
def jsOrStr (a b : Option Str) : Option Str :=
  match a with
  | some v => if v = [] then b else some v
  | none => b

/-- `decryptImage` (source lines 74-109).  The `await ensureCacheIndexed()` on
line 75 runs before any `try`, so its rejection escapes the public boundary —
that is the `.error` outcome of this function.  The in-flight dedup table
(lines 99-108) only matters under concurrency and is modelled separately; in a
sequential run every call begins and ends with no pending entry for its key. -/
def decryptImage (env : Env) (cfg : Config)
    (sessionId imageMd5 imageDatName : Option Str) (force : Bool)
    (st : ServiceState) : Except String (DIResult × ServiceState) :=
  match ensureCacheIndexed env cfg st with
  | .error e => .error e
  | .ok st =>
    match jsOrStr imageMd5 imageDatName with
    | none => .ok (failRes "缺少图片标识", st)
    | some ck =>
      if ck = [] then .ok (failRes "缺少图片标识", st)
      else
        let hit : Option Str :=
          if force then none
          else
            match alookup st.resolvedCache ck with
            | some cached =>
              if env.fsExists cached && isImageFile cached then some cached else none
            | none => none
        match hit with
        | some cached => .ok (okRes cached, st)
        | none =>
          let st :=
            if force then st
            else
              match alookup st.resolvedCache ck with
              | some cached =>
                if !isImageFile cached then
                  { st with resolvedCache := adel st.resolvedCache ck }
                else st
              | none => st
          .ok (decryptImageInternal env cfg sessionId imageMd5 imageDatName ck force st)

/-- The result object of `resolveCachedImage`, which additionally reports a
pending better-quality update. -/
structure RCResult where
  success : Bool
  localPath : Option Str
  error : Option String
  hasUpdate : Bool
deriving DecidableEq

/-- The cache-hit epilogue of `resolveCachedImage` (source lines 39-48 and
59-68): report the update flag for thumbnail hits; clear it for non-thumbnail
hits.  `triggerUpdateCheck` is fire-and-forget and changes no state
synchronously. -/
def resolveCachedHit (st : ServiceState) (key cached : Str) :
    RCResult × ServiceState :=
  let isThumb := isThumbnailPath cached
  let hasUpdate := if isThumb then st.updateFlags.contains key else false
  let st := if isThumb then st else { st with updateFlags := flagDel st.updateFlags key }
  ({ success := true, localPath := some cached, error := none,
     hasUpdate := hasUpdate }, st)

/-- The first loop of `resolveCachedImage` (source lines 36-53): return the
first key whose cached path exists and is an image; evict entries whose path
is not an image file. -/
def resolveCachedLoop1 (env : Env) (st : ServiceState) :
    List Str → Option (Str × Str) × ServiceState
  | [] => (none, st)
  | key :: rest =>
    match alookup st.resolvedCache key with
    | some cached =>
      if env.fsExists cached && isImageFile cached then (some (key, cached), st)
      else if !isImageFile cached then
        resolveCachedLoop1 env
          { st with resolvedCache := adel st.resolvedCache key } rest
      else resolveCachedLoop1 env st rest
    | none => resolveCachedLoop1 env st rest

/-- The second loop of `resolveCachedImage` (source lines 55-70): probe the
cache directory by key and re-register hits via `cacheResolvedPaths`. -/
def resolveCachedLoop2 (env : Env) (cfg : Config)
    (imageMd5 imageDatName : Option Str) (st : ServiceState) :
    List Str → Except String (Option (RCResult × ServiceState))
  | [] => .ok none
  | key :: rest =>
    match findCachedOutput env cfg key with
    | .error e => .error e
    | .ok none => resolveCachedLoop2 env cfg imageMd5 imageDatName st rest
    | .ok (some existing) =>
      let st := { st with resolvedCache :=
        cacheResolvedPaths st.resolvedCache key imageMd5 imageDatName existing }
      .ok (some (resolveCachedHit st key existing))

/-- `resolveCachedImage` (source lines 29-72).  As in `decryptImage`, the
lazy indexing runs before any `try`; moreover the body itself has no
`try`/`catch`, so a `getCacheRoot` throw inside `findCachedOutput` would also
escape — both are the `.error` outcome. -/
def resolveCachedImage (env : Env) (cfg : Config)
    (sessionId imageMd5 imageDatName : Option Str) (st : ServiceState) :
    Except String (RCResult × ServiceState) :=
  match ensureCacheIndexed env cfg st with
  | .error e => .error e
  | .ok st =>
    let cacheKeys := getCacheKeys imageMd5 imageDatName
    if cacheKeys.isEmpty then
      .ok ({ success := false, localPath := none, error := some "缺少图片标识",
             hasUpdate := false }, st)
    else
      let l1 := resolveCachedLoop1 env st cacheKeys
      match l1.1 with
      | some kc => .ok (resolveCachedHit l1.2 kc.1 kc.2)
      | none =>
        match resolveCachedLoop2 env cfg imageMd5 imageDatName l1.2 cacheKeys with
        | .error e => .error e
        | .ok (some r) => .ok r
        | .ok none =>
          .ok ({ success := false, localPath := none, error := some "未找到缓存图片",
                 hasUpdate := false }, l1.2)

/-! ## ConcurrencyCoordinator: the in-flight dedup table (source lines 99-108)

Under the single-threaded event loop, the segment from the `pending` lookup to
the `pending.set` (lines 99-103) runs atomically; a decode settles
asynchronously later, at which point the `finally` clause removes the entry
(line 107) whether the task fulfilled or rejected. -/

/-- `pending.get`. -/
def lookupTask : List (Str × Nat) → Str → Option Nat
  | [], _ => none
  | (k', v) :: rest, k => if k' = k then some v else lookupTask rest k

/-- The dedup-relevant state: the `pending` table, a task-id supply, and a
counter of underlying decode invocations (`decryptImageInternal` calls). -/
structure PendingState where
  pending : List (Str × Nat)
  nextTask : Nat
  decodeCalls : Nat

/-- One `decryptImage` call reaching the dedup segment (source lines 99-103)
for `key`: an existing pending task is returned to the caller as-is; otherwise
a new decode is invoked, registered and returned. -/
def decryptImageDedupCall (st : PendingState) (key : Str) : Nat × PendingState :=
  match lookupTask st.pending key with
  | some t => (t, st)
  | none =>
    (st.nextTask,
     { pending := (key, st.nextTask) :: st.pending,
       nextTask := st.nextTask + 1,
       decodeCalls := st.decodeCalls + 1 })

/-- The `finally` clause (source line 107): the decode for `key` settled —
fulfilled or rejected — and its pending entry is removed. -/
def decryptImageDedupSettle (st : PendingState) (key : Str) : PendingState :=
  { st with pending := st.pending.filter (fun kv => kv.1 ≠ key) }

/-- `n` further calls on the same key, all before the first settles. -/
def iterateCalls (st : PendingState) (key : Str) : Nat → PendingState
  | 0 => st
  | n + 1 => iterateCalls (decryptImageDedupCall st key).2 key n

/-! ## Claim theorems: concurrency dedup (C5) -/

theorem lookupTask_filter_ne (l : List (Str × Nat)) (key : Str) :
    lookupTask (l.filter (fun kv => kv.1 ≠ key)) key = none := by
  induction l with
  | nil => rfl
  | cons kv rest ih =>
    obtain ⟨k1, v1⟩ := kv
    rw [List.filter_cons]
    by_cases h : k1 = key
    · have hc : (decide ((k1, v1).1 ≠ key)) = false := by simp [h]
      rw [hc]
      simpa using ih
    · have hc : (decide ((k1, v1).1 ≠ key)) = true := by simp [h]
      rw [hc]
      simpa [lookupTask, h] using ih

/-- C5: at most one decode in flight per cache key.  From a state with no
pending task for `key`, the first call invokes exactly one new decode and
registers it; any number of further calls on the same key issued before the
first settles leave the state unchanged — so exactly one underlying decode
invocation occurs — and each of them is handed the first caller's task;
settling (the `finally` clause) removes the pending entry, whether the decode
succeeded or failed. -/
theorem decryptImage_dedup (st : PendingState) (key : Str) (n : Nat)
    (h : lookupTask st.pending key = none) :
    (decryptImageDedupCall st key).2.decodeCalls = st.decodeCalls + 1 ∧
    iterateCalls (decryptImageDedupCall st key).2 key n =
      (decryptImageDedupCall st key).2 ∧
    (decryptImageDedupCall (iterateCalls (decryptImageDedupCall st key).2 key n)
      key).1 = (decryptImageDedupCall st key).1 ∧
    (∀ st' : PendingState,
      lookupTask (decryptImageDedupSettle st' key).pending key = none) := by
  have hcall : decryptImageDedupCall st key =
      (st.nextTask,
       { pending := (key, st.nextTask) :: st.pending,
         nextTask := st.nextTask + 1,
         decodeCalls := st.decodeCalls + 1 }) := by
    simp [decryptImageDedupCall, h]
  have hlook : lookupTask ((key, st.nextTask) :: st.pending) key =
      some st.nextTask := by simp [lookupTask]
  have hfix : ∀ m, iterateCalls (decryptImageDedupCall st key).2 key m =
      (decryptImageDedupCall st key).2 := by
    intro m
    induction m with
    | zero => rfl
    | succ m ih =>
      have hstable : decryptImageDedupCall (decryptImageDedupCall st key).2 key =
          (st.nextTask, (decryptImageDedupCall st key).2) := by
        rw [hcall]
        simp [decryptImageDedupCall, hlook]
      rw [iterateCalls, hstable]
      exact ih
  refine ⟨by rw [hcall], hfix n, ?_, ?_⟩
  · rw [hfix n, hcall]
    simp [decryptImageDedupCall, hlook]
  · intro st'
    exact lookupTask_filter_ne st'.pending key

/-- Witness for C5: three more calls arriving after a first call on a fresh
key still see one decode and get the first caller's task. -/
theorem decryptImage_dedup_witness :
    (decryptImageDedupCall ⟨[], 0, 0⟩ "k".toList).2.decodeCalls = 1 ∧
    (decryptImageDedupCall
      (iterateCalls (decryptImageDedupCall ⟨[], 0, 0⟩ "k".toList).2 "k".toList 3)
      "k".toList).1 = (decryptImageDedupCall ⟨[], 0, 0⟩ "k".toList).1 ∧
    lookupTask (decryptImageDedupSettle
      (decryptImageDedupCall ⟨[], 0, 0⟩ "k".toList).2 "k".toList).pending
      "k".toList = none := by
  have h := decryptImage_dedup ⟨[], 0, 0⟩ "k".toList 3 (by decide)
  exact ⟨h.1, h.2.2.1, h.2.2.2 (decryptImageDedupCall ⟨[], 0, 0⟩ "k".toList).2⟩

/-! ## Claim theorems: no thumbnail downgrade (C6) -/

theorem alookup_aset_self (m : PathMap) (k v : Str) :
    alookup (aset m k v) k = some v := by simp [aset, alookup]

theorem alookup_aset_ne (m : PathMap) (k k' v : Str) (h : k ≠ k') :
    alookup (aset m k v) k' = alookup m k' := by simp [aset, alookup, h]

/-- C6 (amended): the startup cache indexing (`addCacheIndex`) never
overwrites an existing non-thumbnail index entry with a thumbnail-classified
file — after any `addCacheIndex`, a key that held a non-thumbnail path still
holds a non-thumbnail path.  The resolve/decrypt paths, however, write through
`cacheResolvedPaths` unconditionally, so they can remap a key from a
(stale) non-thumbnail path to a thumbnail-classified one; see the
counterexample. -/
theorem addCacheIndex_no_downgrade (cache : PathMap) (key path k0 e : Str)
    (he : alookup cache k0 = some e) (hthumb : isThumbnailPath e = false) :
    ∀ e', alookup (addCacheIndex cache key path) k0 = some e' →
      isThumbnailPath e' = false := by
  intro e' he'
  simp only [addCacheIndex] at he'
  rcases hcase : alookup cache (toLowerStr key) with _ | ex
  · rw [hcase] at he'
    simp only [] at he'
    by_cases hk : toLowerStr key = k0
    · rw [hk] at hcase
      rw [hcase] at he
      cases he
    · rw [alookup_aset_ne _ _ _ _ hk, he] at he'
      cases he'
      exact hthumb
  · rw [hcase] at he'
    simp only [] at he'
    by_cases hguard : (!isThumbnailPath ex && isThumbnailPath path) = true
    · rw [if_pos hguard, he] at he'
      cases he'
      exact hthumb
    · rw [if_neg hguard] at he'
      by_cases hk : toLowerStr key = k0
      · rw [hk, alookup_aset_self] at he'
        cases he'
        rw [hk] at hcase
        rw [hcase] at he
        cases he
        simp only [Bool.and_eq_true, Bool.not_eq_true', not_and] at hguard
        exact Bool.not_eq_true _ ▸ Bool.eq_false_iff.mpr (hguard hthumb)
      · rw [alookup_aset_ne _ _ _ _ hk, he] at he'
        cases he'
        exact hthumb

/-- Witness for C6's amended theorem: indexing a thumbnail over a key that
already maps to a non-thumbnail output keeps the mapping non-thumbnail. -/
theorem addCacheIndex_no_downgrade_witness :
    isThumbnailPath "/c/Images/k.jpg".toList = false :=
  addCacheIndex_no_downgrade [("k".toList, "/c/Images/k.jpg".toList)]
    "k".toList "/c/Images/k_t.jpg".toList "k".toList "/c/Images/k.jpg".toList
    (by decide) (by decide) "/c/Images/k.jpg".toList (by decide)

/-- The environment of the C6 counterexample: the cache directory exists and
contains only the thumbnail output `k_t.jpg`; the key's previously indexed
non-thumbnail output `k.jpg` has disappeared from disk. -/
def c6Env : Env where
  fsExists := fun p => p = "/c/Images".toList || p = "/c/Images/k_t.jpg".toList
  readFile := fun _ => none
  readdir := fun _ => none
  isFileOk := fun _ => none
  mkdirOk := true
  documentsPath := "/docs".toList
  resolveAccount := none
  hardlink := fun _ _ => none
  attachFiles := fun _ => []
  writeOk := true
  aesDecrypt := fun _ d => d

def c6Cfg : Config where
  myWxid := none
  dbPath := none
  imageXorKey := none
  imageAesKey := none
  cachePath := some "/c".toList

def c6St : ServiceState where
  resolvedCache := [("k".toList, "/c/Images/k.jpg".toList)]
  updateFlags := []
  cacheIndexed := true

/-- Counterexample to C6 as stated: the key `k` is mapped to the non-thumbnail
output `/c/Images/k.jpg`; a single `resolveCachedImage` call (the mapped file
having disappeared from disk while the thumbnail output `k_t.jpg` exists)
remaps `k` to the thumbnail-classified `/c/Images/k_t.jpg` through the
unconditional `cacheResolvedPaths`. -/
theorem resolveCached_thumbnail_downgrade_counterexample :
    alookup c6St.resolvedCache "k".toList = some "/c/Images/k.jpg".toList ∧
    isThumbnailPath "/c/Images/k.jpg".toList = false ∧
    ((resolveCachedImage c6Env c6Cfg none (some "k".toList) none c6St).toOption.map
      (fun rs => alookup rs.2.resolvedCache "k".toList)) =
      some (some "/c/Images/k_t.jpg".toList) ∧
    isThumbnailPath "/c/Images/k_t.jpg".toList = true := by
  exact ⟨by decide, by decide, by decide, by decide⟩

/-! ## Claim theorems: public boundary (C9) -/

/-- C9 (amended): provided the cache-root resolution (`getCacheRoot`, i.e. the
`mkdirSync` of the cache directory) does not throw, both public operations
return a result object on every path and on every input — no exception
crosses the public boundary.  Without that proviso the claim fails: the lazy
startup indexing runs `getCacheRoot` inside a promise executor before the
internal `try`/`catch`, so its throw rejects the public promise (see the
counterexample). -/
theorem publicOps_no_throw (env : Env) (cfg : Config)
    (sessionId imageMd5 imageDatName : Option Str) (force : Bool)
    (st : ServiceState) (h : (getCacheRoot env cfg).isOk = true) :
    (decryptImage env cfg sessionId imageMd5 imageDatName force st).isOk = true ∧
    (resolveCachedImage env cfg sessionId imageMd5 imageDatName st).isOk = true := by
  obtain ⟨root, hroot⟩ : ∃ root, getCacheRoot env cfg = .ok root := by
    cases hg : getCacheRoot env cfg with
    | ok r => exact ⟨r, rfl⟩
    | error e => rw [hg] at h; simp [Except.isOk, Except.toBool] at h
  obtain ⟨st1, hen⟩ : ∃ st1, ensureCacheIndexed env cfg st = .ok st1 := by
    unfold ensureCacheIndexed
    by_cases hci : st.cacheIndexed
    · rw [if_pos hci]; exact ⟨st, rfl⟩
    · rw [if_neg hci, hroot]
      simp only []
      cases env.readdir root
      · exact ⟨_, rfl⟩
      · exact ⟨_, rfl⟩
  have hfco : ∀ key, ∃ o, findCachedOutput env cfg key = .ok o := by
    intro key
    unfold findCachedOutput
    rw [hroot]
    try simp only []
    repeat' split
    all_goals exact ⟨_, rfl⟩
  constructor
  · unfold decryptImage
    rw [hen]
    try simp only []
    repeat' split
    all_goals simp [Except.isOk, Except.toBool]
  · have hloop2 : ∀ (keys : List Str) (st' : ServiceState),
        ∃ o, resolveCachedLoop2 env cfg imageMd5 imageDatName st' keys = .ok o := by
      intro keys
      induction keys with
      | nil => intro st'; exact ⟨none, rfl⟩
      | cons key rest ih =>
        intro st'
        unfold resolveCachedLoop2
        obtain ⟨o, ho⟩ := hfco key
        rw [ho]
        try simp only []
        cases o with
        | none => exact ih st'
        | some existing => exact ⟨_, rfl⟩
    unfold resolveCachedImage
    rw [hen]
    try simp only []
    split
    · simp [Except.isOk, Except.toBool]
    · split
      · simp [Except.isOk, Except.toBool]
      · obtain ⟨o, ho⟩ := hloop2 (getCacheKeys imageMd5 imageDatName)
          (resolveCachedLoop1 env st1 (getCacheKeys imageMd5 imageDatName)).2
        rw [ho]
        try simp only []
        cases o with
        | none => simp [Except.isOk, Except.toBool]
        | some r => simp [Except.isOk, Except.toBool]

/-- Witness for C9's amended theorem at a concrete environment. -/
theorem publicOps_no_throw_witness :
    (decryptImage c6Env c6Cfg none (some "k".toList) none false c6St).isOk = true ∧
    (resolveCachedImage c6Env c6Cfg none (some "k".toList) none c6St).isOk = true :=
  publicOps_no_throw c6Env c6Cfg none (some "k".toList) none false c6St (by decide)

/-- The environment of the C9 counterexample: the cache root does not exist
and cannot be created (`mkdirSync` throws), and the cache has not been
indexed yet. -/
def c9Env : Env where
  fsExists := fun _ => false
  readFile := fun _ => none
  readdir := fun _ => none
  isFileOk := fun _ => none
  mkdirOk := false
  documentsPath := "/docs".toList
  resolveAccount := none
  hardlink := fun _ _ => none
  attachFiles := fun _ => []
  writeOk := false
  aesDecrypt := fun _ d => d

def c9Cfg : Config where
  myWxid := some "w".toList
  dbPath := some "/db".toList
  imageXorKey := some 1
  imageAesKey := none
  cachePath := some "/c".toList

def c9St : ServiceState where
  resolvedCache := []
  updateFlags := []
  cacheIndexed := false

/-- Counterexample to C9 as stated: when creating the cache root fails, the
failure occurs in the lazy startup indexing before the internal `try`/`catch`
of either public operation, and both public calls reject (throw) instead of
returning a failure result object. -/
theorem publicOps_throw_counterexample :
    decryptImage c9Env c9Cfg none (some "k".toList) none false c9St =
      .error "EACCES: mkdir failed" ∧
    resolveCachedImage c9Env c9Cfg none (some "k".toList) none c9St =
      .error "EACCES: mkdir failed" := by
  exact ⟨by decide, by decide⟩

/-! ## Claim theorems: AES key configuration (C10) -/

/-- C10: a configured AES key that is non-empty but shorter than 16 characters
after trimming makes every decryptImage call that reaches the key-resolution
stage return a failure result — `asciiKey16` throws during key derivation,
before `decryptDatAuto` reads the container for version detection, so even
legacy plain-XOR containers are affected.  An empty or absent configured key
instead resolves to no key, and legacy (version-0) containers decode as plain
XOR while fixed-key (version-1) containers decode with the built-in key. -/
theorem shortConfiguredAesKey_fails (env : Env) (cfg : Config)
    (sid md5 dn : Option Str) (ck : Str) (force : Bool) (st : ServiceState)
    (fb : ServiceState → DIResult × ServiceState) :
    (∀ raw aDir datPath xk,
      cfg.imageAesKey = some raw → trimStr raw ≠ [] → (trimStr raw).length < 16 →
      cfg.myWxid ≠ none → cfg.dbPath ≠ none →
      env.resolveAccount = some aDir →
      (resolveDatPath env st.resolvedCache aDir md5 dn sid (!force) force).1 =
        some datPath →
      containsSeq (toLowerStr (extnameStr datPath)) "dat".toList = true →
      (if force then (Except.ok none : Except String (Option Str))
        else findCachedOutput env cfg ck) = .ok none →
      cfg.imageXorKey = some xk → xk ≠ 0 →
      (decryptImageInternalAux env cfg sid md5 dn ck force st fb).1 =
        failRes "AES密钥至少需要16个字符") ∧
    (∀ raw, trimStr raw = [] → resolveAesKey (some raw) = .ok none) ∧
    resolveAesKey none = .ok none ∧
    (∀ bytes xorKey, getDatVersion bytes = 0 →
      decryptDatAuto env.aesDecrypt bytes xorKey none =
        .ok (decryptDatV3 bytes xorKey)) ∧
    (∀ bytes xorKey, getDatVersion bytes = 1 →
      decryptDatAuto env.aesDecrypt bytes xorKey none =
        decryptDatV4 env.aesDecrypt bytes xorKey builtinV1Key) := by
  refine ⟨?_, ?_, ?_, ?_, ?_⟩
  · intro raw aDir datPath xk hraw ht hlen hwx hdb hacct hr1 hdat hcache hx hxk
    have hkey : resolveAesKey cfg.imageAesKey = .error "AES密钥至少需要16个字符" := by
      rw [hraw]
      unfold resolveAesKey asciiKey16
      simp only [Option.getD]
      rw [if_neg ht, if_pos hlen]
    have hcond : (decide (cfg.myWxid = none) || decide (cfg.dbPath = none)) = false := by
      simp [hwx, hdb]
    unfold decryptImageInternalAux
    rw [hcond]
    simp only [Bool.false_eq_true, if_false]
    rw [hacct]
    try simp only []
    rw [hr1]
    try simp only []
    rw [hdat]
    simp only [Bool.not_true, Bool.false_eq_true, if_false]
    rw [hcache]
    try simp only []
    rw [hx]
    try simp only []
    rw [if_neg hxk, hkey]
  · intro raw hr
    unfold resolveAesKey
    simp only [Option.getD]
    rw [if_pos hr]
  · rfl
  · intro bytes xorKey hv
    simp [decryptDatAuto, hv]
  · intro bytes xorKey hv
    have hkey : asciiKey16 defaultV1AesKey = .ok builtinV1Key := by decide
    simp only [decryptDatAuto, hv]
    norm_num
    simp only [hkey]
    rfl

/-- The C10 witness environment: account and container resolve, the XOR key
is configured, and the configured AES key is the 5-character `short`. -/
def c10Env : Env where
  fsExists := fun p => p = "/c/Images".toList
  readFile := fun _ => none
  readdir := fun _ => none
  isFileOk := fun _ => none
  mkdirOk := true
  documentsPath := "/docs".toList
  resolveAccount := some "/a".toList
  hardlink := fun m _ => if m = "m".toList then some "/a/f.dat".toList else none
  attachFiles := fun _ => []
  writeOk := true
  aesDecrypt := fun _ d => d

def c10Cfg : Config where
  myWxid := some "w".toList
  dbPath := some "/db".toList
  imageXorKey := some 1
  imageAesKey := some "short".toList
  cachePath := some "/c".toList

/-- Witness for C10: with the 5-character configured key, a call that reaches
key resolution fails with the key-derivation message — even though the
container would have decoded as legacy XOR. -/
theorem shortConfiguredAesKey_fails_witness :
    (decryptImageInternalAux c10Env c10Cfg none (some "m".toList) none
      "m".toList false ⟨[], [], true⟩
      (fun s => (failRes "unreachable", s))).1 =
      failRes "AES密钥至少需要16个字符" :=
  (shortConfiguredAesKey_fails c10Env c10Cfg none (some "m".toList) none
    "m".toList false ⟨[], [], true⟩
    (fun s => (failRes "unreachable", s))).1 "short".toList "/a".toList
    "/a/f.dat".toList 1 (by decide) (by decide) (by decide) (by decide)
    (by decide) (by decide) (by decide) (by decide) (by decide) (by decide)
    (by decide)

/-! ## Claim C8 infrastructure: string lemmas -/

theorem charToNat_ofNat_valid (n : Nat) (h : n.isValidChar) :
    (Char.ofNat n).toNat = n := by
  unfold Char.ofNat
  rw [dif_pos h]
  rfl

theorem toLower_eq_slash {c : Char} (h : c.toLower = '/') : c = '/' := by
  unfold Char.toLower at h
  simp only [] at h
  by_cases hn : c.toNat ≥ 65 ∧ c.toNat ≤ 90
  · rw [if_pos hn] at h
    exfalso
    have hval : (c.toNat + 32).isValidChar := by
      unfold Nat.isValidChar
      left
      omega
    have h2 := congrArg Char.toNat h
    rw [charToNat_ofNat_valid _ hval] at h2
    have h3 : ('/' : Char).toNat = 47 := by decide
    omega
  · rw [if_neg hn] at h
    exact h

/-- A path with no separator has no separator after lowercasing. -/
theorem toLowerStr_no_slash (f : Str) (h : ∀ c ∈ f, c ≠ '/') :
    ∀ c ∈ toLowerStr f, c ≠ '/' := by
  intro c hc
  obtain ⟨c', hc', rfl⟩ := List.mem_map.mp hc
  intro hlow
  exact h c' hc' (toLower_eq_slash hlow)

theorem containsSeq_iff (l p : Str) : containsSeq l p = true ↔ p <:+: l := by
  unfold containsSeq
  rw [List.any_eq_true]
  constructor
  · rintro ⟨t, ht, hp⟩
    exact (List.infix_iff_prefix_suffix).mpr
      ⟨t, List.isPrefixOf_iff_prefix.mp hp, (List.mem_tails t l).mp ht⟩
  · intro h
    obtain ⟨t, h1, h2⟩ := (List.infix_iff_prefix_suffix).mp h
    exact ⟨t, (List.mem_tails t l).mpr h2, List.isPrefixOf_iff_prefix.mpr h1⟩

theorem suffix_containsSeq (l p : Str) (h : p <:+ l) : containsSeq l p = true :=
  (containsSeq_iff l p).mpr h.isInfix

theorem takeWhile_append_all (p : Char → Bool) (u v : Str)
    (h : ∀ c ∈ u, p c = true) :
    (u ++ v).takeWhile p = u ++ v.takeWhile p := by
  induction u with
  | nil => simp
  | cons x u' ih =>
    have hx : p x = true := h x (List.mem_cons_self x u')
    simp only [List.cons_append, List.takeWhile_cons, hx, if_true]
    rw [ih (fun c hc => h c (List.mem_cons_of_mem x hc))]

/-- A string with no separator is its own base name. -/
theorem basenameStr_eq_self (f : Str) (h : ∀ c ∈ f, c ≠ '/') :
    basenameStr f = f := by
  unfold basenameStr
  have : f.reverse.takeWhile (fun c => c ≠ '/') = f.reverse := by
    have hall : ∀ c ∈ f.reverse, (fun c => decide (c ≠ '/')) c = true := by
      intro c hc
      simp [h c (List.mem_reverse.mp hc)]
    have := takeWhile_append_all (fun c => c ≠ '/') f.reverse [] hall
    simpa using this
  rw [this, List.reverse_reverse]

/-- `basename (join d f) = f` when `f` has no separator. -/
theorem basenameStr_join (d f : Str) (h : ∀ c ∈ f, c ≠ '/') :
    basenameStr (joinPath d f) = f := by
  unfold basenameStr joinPath
  rw [List.reverse_append, List.reverse_cons]
  have hall : ∀ c ∈ f.reverse, (fun c => decide (c ≠ '/')) c = true := by
    intro c hc
    simp [h c (List.mem_reverse.mp hc)]
  rw [List.append_assoc, takeWhile_append_all _ _ _ hall]
  simp [List.takeWhile]

/-- Base names contain no separator. -/
theorem basenameStr_no_slash (p : Str) : ∀ c ∈ basenameStr p, c ≠ '/' := by
  intro c hc
  unfold basenameStr at hc
  rw [List.mem_reverse] at hc
  have := List.mem_takeWhile_imp hc
  simpa using this

/-- Occurrences of a pattern in `a ++ b` lie in `a`, lie in `b`, or span the
boundary with a proper suffix of the pattern prefixing `b`. -/
theorem infix_append_cases (p a b : Str) (h : p <:+: a ++ b) :
    p <:+: a ∨ p <:+: b ∨ ∃ k, 0 < k ∧ k < p.length ∧ p.drop k <+: b := by
  induction a with
  | nil => exact Or.inr (Or.inl (by simpa using h))
  | cons x a' ih =>
    rw [List.cons_append, List.infix_cons_iff] at h
    rcases h with hpre | hinf
    · by_cases hl : p.length ≤ (x :: a').length
      · left
        have h1 := List.prefix_iff_eq_take.mp hpre
        rw [← List.cons_append, List.take_append_eq_append_take] at h1
        have h2 : p.length - (x :: a').length = 0 := by omega
        rw [h2, List.take_zero, List.append_nil] at h1
        exact (h1 ▸ List.take_prefix _ _).isInfix
      · push_neg at hl
        right; right
        refine ⟨(x :: a').length, by simp, hl, ?_⟩
        have h1 := List.prefix_iff_eq_take.mp hpre
        rw [← List.cons_append, List.take_append_eq_append_take] at h1
        rw [List.take_of_length_le (by omega : (x :: a').length ≤ p.length)] at h1
        have h3 : p.drop (x :: a').length = b.take (p.length - (x :: a').length) := by
          conv_lhs => rw [h1]
          rw [List.drop_left]
        rw [h3]
        exact List.take_prefix _ _
    · rcases ih hinf with h | h | h
      · exact Or.inl (List.infix_cons_iff.mpr (Or.inr h))
      · exact Or.inr (Or.inl h)
      · exact Or.inr (Or.inr h)

/-- Boundary-safety of the thumbnail patterns against the image extensions:
no nonempty proper suffix of `_t.dat` or `.t.dat` is a prefix of any produced
image extension, the patterns have length 6, and every extension is shorter
than 6 characters, starts with a dot followed by dot-free characters, has no
separator, and is already lowercase. -/
theorem thumbPat_ext_facts : ∀ E ∈ imageExtensions,
    (∀ k, k < 6 → 0 < k →
      (("_t.dat".toList.drop k).isPrefixOf E = false ∧
       ((".t.dat".toList.drop k).isPrefixOf E = false))) ∧
    E.length ≤ 5 ∧ toLowerStr E = E ∧ (∀ c ∈ E, c ≠ '/') ∧
    ("_t".toList.isSuffixOf E = false) := by
  decide

/-- If a pattern does not occur in `B ++ ".dat"`, it does not occur in
`B ++ E` for an image extension `E` (no occurrence fits inside or spans into
the short, incompatible extension). -/
theorem not_contains_append_ext (B E pat : Str) (hE : E ∈ imageExtensions)
    (hlen : pat.length = 6)
    (hnospan : ∀ k, k < 6 → 0 < k → (pat.drop k).isPrefixOf E = false)
    (hElen : E.length ≤ 5)
    (hB : containsSeq (B ++ ".dat".toList) pat = false) :
    containsSeq (B ++ E) pat = false := by
  by_contra hc
  rw [Bool.not_eq_false, containsSeq_iff] at hc
  rcases infix_append_cases pat B E hc with h | h | ⟨k, hk0, hklt, hkpre⟩
  · have : containsSeq (B ++ ".dat".toList) pat = true :=
      (containsSeq_iff _ _).mpr (h.trans (List.prefix_append B _).isInfix)
    rw [this] at hB
    cases hB
  · have := h.length_le
    omega
  · have := hnospan k (by omega) hk0
    rw [List.isPrefixOf_iff_prefix.mpr hkpre] at this
    cases this

/-- Reconstruction: a string ending in a four-character suffix is its first
part plus that suffix. -/
theorem dropLastN_append_of_suffix (l s : Str) (h : s <:+ l) :
    dropLastN l s.length ++ s = l := by
  obtain ⟨t, rfl⟩ := h
  unfold dropLastN
  rw [List.length_append, Nat.add_sub_cancel, List.take_left]

theorem dropLastN_append_right (u v : Str) : dropLastN (u ++ v) v.length = u := by
  unfold dropLastN
  have h : (u ++ v).length - v.length = u.length := by simp
  rw [h, List.take_left]

/-- `extname` of a string ending in a dot followed by dot-free characters:
that final segment, unless it is the whole base name. -/
theorem extnameStr_append_dotRest (B rest : Str)
    (hns : ∀ c ∈ B ++ '.' :: rest, c ≠ '/')
    (hnd : ∀ c ∈ rest, c ≠ '.') :
    extnameStr (B ++ '.' :: rest) =
      if B.length = 0 then [] else '.' :: rest := by
  simp only [extnameStr]
  rw [basenameStr_eq_self _ hns]
  have hrev : (B ++ '.' :: rest).reverse = rest.reverse ++ '.' :: B.reverse := by
    rw [List.reverse_append, List.reverse_cons, List.append_assoc]
    rfl
  rw [hrev]
  have hall : ∀ c ∈ rest.reverse, (fun c => decide (c ≠ '.')) c = true := by
    intro c hc
    simp [hnd c (List.mem_reverse.mp hc)]
  rw [takeWhile_append_all _ _ _ hall]
  have hstop : ('.' :: B.reverse).takeWhile (fun c => decide (c ≠ '.')) = [] := by
    simp [List.takeWhile_cons]
  rw [hstop, List.append_nil]
  by_cases hB : B.length = 0
  · have hc : ¬ (rest.reverse.length + 1 < (B ++ '.' :: rest).length) := by
      simp only [List.length_reverse, List.length_append, List.length_cons]
      omega
    rw [if_neg hc, if_pos hB]
  · have hc : rest.reverse.length + 1 < (B ++ '.' :: rest).length := by
      simp only [List.length_reverse, List.length_append, List.length_cons]
      omega
    rw [if_pos hc, if_neg hB, List.reverse_reverse]

/-- `extname` of a (separator-free) name longer than 4 ending in `.dat`. -/
theorem extnameStr_of_dat_suffix (lf : Str) (hns : ∀ c ∈ lf, c ≠ '/')
    (h : ".dat".toList <:+ lf) (hlen : 4 < lf.length) :
    extnameStr lf = ".dat".toList := by
  obtain ⟨t, rfl⟩ := h
  have hsplit : ".dat".toList = '.' :: "dat".toList := by decide
  rw [hsplit] at hns ⊢
  rw [hsplit] at hlen
  rw [extnameStr_append_dotRest t "dat".toList hns (by decide)]
  have ht : ¬ t.length = 0 := by
    simp only [List.length_append, List.length_cons] at hlen
    have h3 : ("dat".toList : Str).length = 3 := by decide
    omega
  rw [if_neg ht]

/-- A walk-accepted `.dat` file name (ends in `.dat`, lowercased form free of
the thumbnail markers) yields a non-thumbnail path when joined to its
directory. -/
theorem accepted_not_thumbnail (d f : Str) (hns : ∀ c ∈ f, c ≠ '/')
    (hdat : ".dat".toList.isSuffixOf (toLowerStr f) = true)
    (hnt : isThumbnailDat (toLowerStr f) = false) :
    isThumbnailPath (joinPath d f) = false := by
  simp only [isThumbnailPath]
  rw [basenameStr_join d f hns]
  rw [hnt]
  simp only [Bool.false_eq_true, if_false]
  have hsuf : ".dat".toList <:+ toLowerStr f := List.isSuffixOf_iff_suffix.mp hdat
  have hnsl : ∀ c ∈ toLowerStr f, c ≠ '/' := toLowerStr_no_slash f hns
  by_cases hlen : 4 < (toLowerStr f).length
  · rw [extnameStr_of_dat_suffix _ hnsl hsuf hlen]
    rw [if_pos (by decide : (".dat".toList : Str) ≠ [])]
    have h4 : (".dat".toList : Str).length = 4 := by decide
    rw [h4]
    by_contra hc
    rw [Bool.not_eq_false] at hc
    obtain ⟨u, hu⟩ := List.isSuffixOf_iff_suffix.mp hc
    have hrec : dropLastN (toLowerStr f) 4 ++ ".dat".toList = toLowerStr f := by
      have := dropLastN_append_of_suffix (toLowerStr f) ".dat".toList hsuf
      rwa [h4] at this
    have h5 : "_t.dat".toList <:+ toLowerStr f := by
      refine ⟨u, ?_⟩
      rw [← hrec, ← hu]
      have : "_t.dat".toList = "_t".toList ++ ".dat".toList := by decide
      rw [this, ← List.append_assoc]
    have h6 := suffix_containsSeq _ _ h5
    unfold isThumbnailDat at hnt
    rw [h6] at hnt
    simp at hnt
  · have hdatlen : (toLowerStr f).length = 4 := by
      obtain ⟨t, ht⟩ := hsuf
      have := congrArg List.length ht
      simp only [List.length_append] at this
      have h4 : (".dat".toList : Str).length = 4 := by decide
      omega
    have heq : toLowerStr f = ".dat".toList := by
      obtain ⟨t, ht⟩ := hsuf
      have hl := congrArg List.length ht
      simp only [List.length_append] at hl
      have h4 : (".dat".toList : Str).length = 4 := by decide
      have ht0 : t = [] := by
        rw [h4] at hl
        rw [hdatlen] at hl
        exact List.length_eq_zero.mp (by omega)
      rw [ht0] at ht
      simpa using ht.symm
    rw [heq]
    decide

/-- Shape facts about the produced image extensions: each starts with a dot
followed by dot-free characters, and a bare extension never classifies as a
thumbnail base. -/
theorem ext_shape_facts : ∀ E ∈ imageExtensions,
    E.headD ' ' = '.' ∧ E ≠ [] ∧ (∀ c ∈ E.drop 1, c ≠ '.') ∧
    ("_t".toList.isSuffixOf
      (if extnameStr E ≠ [] then dropLastN E (extnameStr E).length else E) =
      false) := by
  decide

/-- The cache output path built from a non-thumbnail `.dat` container — the
container's base name plus a sniffed image extension, under the cache root —
is itself never thumbnail-classified. -/
theorem output_not_thumbnail (datPath E root : Str) (hE : E ∈ imageExtensions)
    (hnt : isThumbnailPath datPath = false)
    (hdat : ".dat".toList.isSuffixOf (toLowerStr (basenameStr datPath)) = true) :
    isThumbnailPath
      (joinPath root (dropLastN (basenameStr datPath) 4 ++ E)) = false := by
  obtain ⟨hnospan, hElen, hElow, hEns, hEt⟩ := thumbPat_ext_facts E hE
  obtain ⟨hEhead, hEne, hEnd, hEbare⟩ := ext_shape_facts E hE
  have hnsn : ∀ c ∈ basenameStr datPath, c ≠ '/' := basenameStr_no_slash datPath
  have hnsl : ∀ c ∈ toLowerStr (basenameStr datPath), c ≠ '/' :=
    toLowerStr_no_slash _ hnsn
  have hsuf : ".dat".toList <:+ toLowerStr (basenameStr datPath) :=
    List.isSuffixOf_iff_suffix.mp hdat
  have h4 : (".dat".toList : Str).length = 4 := by decide
  have hrec : dropLastN (toLowerStr (basenameStr datPath)) 4 ++ ".dat".toList =
      toLowerStr (basenameStr datPath) := by
    have := dropLastN_append_of_suffix _ _ hsuf
    rwa [h4] at this
  have hbase_nt : isThumbnailDat (toLowerStr (basenameStr datPath)) = false := by
    by_contra hc
    rw [Bool.not_eq_false] at hc
    simp only [isThumbnailPath] at hnt
    rw [hc] at hnt
    simp at hnt
  have hlowB : toLowerStr (dropLastN (basenameStr datPath) 4) =
      dropLastN (toLowerStr (basenameStr datPath)) 4 := by
    unfold toLowerStr dropLastN
    rw [← List.map_take]
    congr 2
    simp
  have hnsBE : ∀ c ∈ dropLastN (basenameStr datPath) 4 ++ E, c ≠ '/' := by
    intro c hc
    rcases List.mem_append.mp hc with h | h
    · exact hnsn c (List.take_subset _ _ h)
    · exact hEns c h
  simp only [isThumbnailPath]
  rw [basenameStr_join root _ hnsBE]
  have hlower : toLowerStr (dropLastN (basenameStr datPath) 4 ++ E) =
      dropLastN (toLowerStr (basenameStr datPath)) 4 ++ E := by
    unfold toLowerStr
    rw [List.map_append]
    have h1 : (dropLastN (basenameStr datPath) 4).map Char.toLower =
        dropLastN (toLowerStr (basenameStr datPath)) 4 := hlowB
    have h2 : E.map Char.toLower = E := hElow
    rw [h1, h2]
    rfl
  rw [hlower]
  have hbase12 : containsSeq (toLowerStr (basenameStr datPath)) ".t.dat".toList = false ∧
      containsSeq (toLowerStr (basenameStr datPath)) "_t.dat".toList = false := by
    unfold isThumbnailDat at hbase_nt
    exact Bool.or_eq_false_iff.mp hbase_nt
  have hcont1 : containsSeq
      (dropLastN (toLowerStr (basenameStr datPath)) 4 ++ E) "_t.dat".toList =
      false := by
    refine not_contains_append_ext _ E _ hE (by decide)
      (fun k hk hk0 => (hnospan k hk hk0).1) hElen ?_
    rw [hrec]
    exact hbase12.2
  have hcont2 : containsSeq
      (dropLastN (toLowerStr (basenameStr datPath)) 4 ++ E) ".t.dat".toList =
      false := by
    refine not_contains_append_ext _ E _ hE (by decide)
      (fun k hk hk0 => (hnospan k hk hk0).2) hElen ?_
    rw [hrec]
    exact hbase12.1
  have h1 : isThumbnailDat
      (dropLastN (toLowerStr (basenameStr datPath)) 4 ++ E) = false := by
    unfold isThumbnailDat
    rw [hcont1, hcont2]
    rfl
  rw [h1]
  simp only [Bool.false_eq_true, if_false]
  by_cases hLB : (dropLastN (toLowerStr (basenameStr datPath)) 4).length = 0
  · have hnil : dropLastN (toLowerStr (basenameStr datPath)) 4 = [] :=
      List.length_eq_zero.mp hLB
    rw [hnil, List.nil_append]
    exact hEbare
  · obtain ⟨e0, rest, rfl⟩ : ∃ e0 rest, E = e0 :: rest := by
      cases E with
      | nil => exact absurd rfl hEne
      | cons a b => exact ⟨a, b, rfl⟩
    have he0 : e0 = '.' := by simpa using hEhead
    subst he0
    have hextE : extnameStr
        (dropLastN (toLowerStr (basenameStr datPath)) 4 ++ '.' :: rest) =
        '.' :: rest := by
      rw [extnameStr_append_dotRest _ rest ?hns ?hnd]
      · rw [if_neg hLB]
      case hns =>
        intro c hc
        rcases List.mem_append.mp hc with h | h
        · exact hnsl c (List.take_subset _ _ h)
        · exact hEns c h
      case hnd =>
        intro c hc
        exact hEnd c (by simpa using hc)
    rw [hextE]
    rw [if_pos (by simp : ('.' :: rest : Str) ≠ [])]
    have hdrop : dropLastN
        (dropLastN (toLowerStr (basenameStr datPath)) 4 ++ '.' :: rest)
        ('.' :: rest).length =
        dropLastN (toLowerStr (basenameStr datPath)) 4 :=
      dropLastN_append_right _ _
    rw [hdrop]
    by_contra hc
    rw [Bool.not_eq_false] at hc
    obtain ⟨u, hu⟩ := List.isSuffixOf_iff_suffix.mp hc
    have h5 : "_t.dat".toList <:+ toLowerStr (basenameStr datPath) := by
      refine ⟨u, ?_⟩
      rw [← hrec, ← hu]
      have hsp : "_t.dat".toList = "_t".toList ++ ".dat".toList := by decide
      rw [hsp, ← List.append_assoc]
    have h6 := suffix_containsSeq _ _ h5
    unfold isThumbnailDat at hbase_nt
    rw [h6] at hbase_nt
    simp at hbase_nt

/-- The strict-max fold of `walkForDat` yields its accumulator or a list
member. -/
theorem foldl_best_mem (l : List WalkCandidate) :
    ∀ (acc : Option WalkCandidate) (r : WalkCandidate),
      (l.foldl (fun best item =>
        match best with
        | none => some item
        | some b => if item.score > b.score then some item else some b) acc) =
          some r →
      acc = some r ∨ r ∈ l := by
  induction l with
  | nil => intro acc r h; exact Or.inl h
  | cons c rest ih =>
    intro acc r h
    rw [List.foldl_cons] at h
    rcases ih _ r h with hacc | hm
    · cases acc with
      | none =>
        simp only [] at hacc
        cases hacc
        exact Or.inr (List.mem_cons_self _ _)
      | some b =>
        simp only [] at hacc
        by_cases hs : c.score > b.score
        · rw [if_pos hs] at hacc
          cases hacc
          exact Or.inr (List.mem_cons_self _ _)
        · rw [if_neg hs] at hacc
          exact Or.inl hacc
    · exact Or.inr (List.mem_cons_of_mem _ hm)

/-- A path returned by the walk's selection stage is the path of one of the
collected candidates. -/
theorem pickBestCandidate_mem (thumbOnly : Bool) (cands : List WalkCandidate)
    (p : Str) (h : pickBestCandidate thumbOnly cands = some p) :
    ∃ c ∈ cands, c.path = p := by
  unfold pickBestCandidate at h
  by_cases hc : cands.isEmpty
  · rw [if_pos hc] at h
    cases h
  · rw [if_neg hc] at h
    simp only [Option.map_eq_some'] at h
    obtain ⟨r, hr, hp⟩ := h
    rcases foldl_best_mem _ none r hr with h0 | hm
    · cases h0
    · refine ⟨r, ?_, hp⟩
      repeat' split at hm
      all_goals first
        | exact hm
        | exact List.mem_of_mem_filter hm
        | exact List.mem_of_mem_filter (List.mem_of_mem_filter hm)

/-- Environment wellformedness: directory entries visited by the walk carry
no path separator (they are plain `readdirSync` names). -/
def EnvWF (env : Env) : Prop :=
  ∀ root df, df ∈ env.attachFiles root → ∀ c ∈ df.2, c ≠ '/'

/-- A walk that disallows thumbnails never returns a thumbnail-classified
path. -/
theorem walkForDat_strict_not_thumb (files : List (Str × Str)) (dn : Str)
    (tO : Bool) (p : Str)
    (hwf : ∀ df ∈ files, ∀ c ∈ df.2, c ≠ '/')
    (h : walkForDat files dn false tO = some p) :
    isThumbnailPath p = false := by
  unfold walkForDat at h
  obtain ⟨c, hc, hcp⟩ := pickBestCandidate_mem _ _ _ h
  obtain ⟨df, hdf, hfm⟩ := List.mem_filterMap.mp hc
  simp only [] at hfm
  by_cases hacc : walkEntryAccept dn false tO df.2 = true
  · rw [if_pos hacc] at hfm
    cases hfm
    unfold walkEntryAccept at hacc
    simp only [Bool.and_eq_true] at hacc
    obtain ⟨⟨⟨⟨⟨hdat, _⟩, _⟩, _⟩, hth⟩, _⟩ := hacc
    have hnt : isThumbnailDat (toLowerStr df.2) = false := by
      simpa using hth
    rw [← hcp]
    exact accepted_not_thumbnail df.1 df.2 (hwf df hdf) hdat hnt
  · rw [if_neg hacc] at hfm
    cases hfm

/-- `searchDatFile` with thumbnails disallowed never returns a
thumbnail-classified path (both from its result cache and from the walk). -/
theorem searchDatFile_strict_not_thumb (env : Env) (cache : PathMap)
    (aDir dn : Str) (tO : Bool) (hwf : EnvWF env) (p : Str)
    (h : (searchDatFile env cache aDir dn false tO).1 = some p) :
    isThumbnailPath p = false := by
  unfold searchDatFile at h
  simp only [] at h
  have hwalk : ∀ found,
      walkForDat (env.attachFiles (joinPath (joinPath aDir "msg".toList)
        "attach".toList)) (toLowerStr dn) false tO = some found →
      isThumbnailPath found = false := fun found hw =>
    walkForDat_strict_not_thumb _ _ _ _ (fun df hdf => hwf _ df hdf) hw
  rcases hct : alookup cache (aDir ++ '|' :: dn) with _ | cached
  · simp only [hct] at h
    by_cases hroot : env.fsExists (joinPath (joinPath aDir "msg".toList)
        "attach".toList) = true
    · simp only [hroot, Bool.not_true, Bool.false_eq_true, if_false] at h
      rcases hw : walkForDat (env.attachFiles (joinPath (joinPath aDir
          "msg".toList) "attach".toList)) (toLowerStr dn) false tO with _ | found
      · simp only [hw] at h
        cases h
      · simp only [hw] at h
        cases h
        exact hwalk _ hw
    · rw [Bool.not_eq_true] at hroot
      simp only [hroot, Bool.not_false, if_true] at h
      cases h
  · simp only [hct] at h
    by_cases hguard : (env.fsExists cached &&
        (false || !isThumbnailPath cached)) = true
    · simp only [hguard, if_true] at h
      cases h
      simp only [Bool.and_eq_true, Bool.false_or, Bool.not_eq_true'] at hguard
      exact hguard.2
    · rw [Bool.not_eq_true] at hguard
      simp only [hguard, Bool.false_eq_true, if_false] at h
      by_cases hroot : env.fsExists (joinPath (joinPath aDir "msg".toList)
          "attach".toList) = true
      · simp only [hroot, Bool.not_true, Bool.false_eq_true, if_false] at h
        rcases hw : walkForDat (env.attachFiles (joinPath (joinPath aDir
            "msg".toList) "attach".toList)) (toLowerStr dn) false tO with _ | found
        · simp only [hw] at h
          cases h
        · simp only [hw] at h
          cases h
          exact hwalk _ hw
      · rw [Bool.not_eq_true] at hroot
        simp only [hroot, Bool.not_false, if_true] at h
        cases h

theorem resolveDatPathSearch_strict_not_thumb (env : Env) (cache : PathMap)
    (aDir dn : Str) (hwf : EnvWF env) (p : Str)
    (h : (resolveDatPathSearch env cache aDir dn false).1 = some p) :
    isThumbnailPath p = false := by
  unfold resolveDatPathSearch at h
  rcases hs : searchDatFile env cache aDir dn false false with ⟨dp, cache1⟩
  rw [hs] at h
  simp only [] at h
  cases dp with
  | some p1 =>
    simp only [] at h
    cases h
    exact searchDatFile_strict_not_thumb env cache aDir dn false hwf _ (by rw [hs])
  | none =>
    simp only [] at h
    by_cases hn : normalizeDatBase dn ≠ toLowerStr dn
    · rw [if_pos hn] at h
      rcases hs2 : searchDatFile env cache1 aDir (normalizeDatBase dn) false
          false with ⟨dp2, cache2⟩
      rw [hs2] at h
      simp only [] at h
      cases dp2 with
      | some p2 =>
        simp only [] at h
        cases h
        exact searchDatFile_strict_not_thumb env cache1 aDir _ false hwf _
          (by rw [hs2])
      | none =>
        simp only [] at h
        cases h
    · rw [if_neg hn] at h
      cases h

theorem resolveDatPathTail_strict_not_thumb (env : Env) (cache : PathMap)
    (aDir : Str) (dnO : Option Str) (skip : Bool) (hwf : EnvWF env) (p : Str)
    (h : (resolveDatPathTail env cache aDir dnO false skip).1 = some p) :
    isThumbnailPath p = false := by
  unfold resolveDatPathTail at h
  cases dnO with
  | none =>
    simp only [] at h
    cases h
  | some dn =>
    simp only [] at h
    by_cases hskip : skip = true
    · simp only [hskip, if_true] at h
      exact resolveDatPathSearch_strict_not_thumb env cache aDir dn hwf p h
    · rw [Bool.not_eq_true] at hskip
      simp only [hskip, Bool.false_eq_true, if_false] at h
      rcases hct : alookup cache dn with _ | cached
      · simp only [hct] at h
        exact resolveDatPathSearch_strict_not_thumb env cache aDir dn hwf p h
      · simp only [hct] at h
        by_cases hg : (env.fsExists cached && (false || !isThumbnailPath cached)) = true
        · simp only [hg, if_true] at h
          cases h
          simp only [Bool.and_eq_true, Bool.false_or, Bool.not_eq_true'] at hg
          exact hg.2
        · rw [Bool.not_eq_true] at hg
          simp only [hg, Bool.false_eq_true, if_false] at h
          exact resolveDatPathSearch_strict_not_thumb env cache aDir dn hwf p h

/-- C8 part: the strict pass of the container resolution — thumbnails
disallowed, resolved-path cache bypassed or not — never returns a
thumbnail-classified path, on any of its branches (hardlink hit, cached
search result, or filesystem walk). -/
theorem resolveDatPath_strict_not_thumb (env : Env) (cache : PathMap)
    (aDir : Str) (md5 dn sid : Option Str) (skip : Bool) (hwf : EnvWF env)
    (p : Str)
    (h : (resolveDatPath env cache aDir md5 dn sid false skip).1 = some p) :
    isThumbnailPath p = false := by
  unfold resolveDatPath at h
  cases md5 with
  | some m =>
    simp only [] at h
    rcases hh : env.hardlink m sid with _ | q
    · simp only [hh] at h
      exact resolveDatPathTail_strict_not_thumb env cache aDir dn skip hwf p h
    · simp only [hh] at h
      by_cases hg : (false || !isThumbnailPath q) = true
      · simp only [hg, if_true] at h
        cases h
        simp only [Bool.false_or, Bool.not_eq_true'] at hg
        exact hg
      · rw [Bool.not_eq_true] at hg
        simp only [hg, Bool.false_eq_true, if_false] at h
        exact resolveDatPathTail_strict_not_thumb env cache aDir dn skip hwf p h
  | none =>
    simp only [] at h
    cases dn with
    | none =>
      simp only [] at h
      cases h
    | some d =>
      simp only [] at h
      by_cases hmd : looksLikeMd5 d = true
      · simp only [hmd, if_true] at h
        rcases hh : env.hardlink d sid with _ | q
        · simp only [hh] at h
          exact resolveDatPathTail_strict_not_thumb env cache aDir (some d)
            skip hwf p h
        · simp only [hh] at h
          by_cases hg : (false || !isThumbnailPath q) = true
          · simp only [hg, if_true] at h
            cases h
            simp only [Bool.false_or, Bool.not_eq_true'] at hg
            exact hg
          · rw [Bool.not_eq_true] at hg
            simp only [hg, Bool.false_eq_true, if_false] at h
            exact resolveDatPathTail_strict_not_thumb env cache aDir (some d)
              skip hwf p h
      · rw [Bool.not_eq_true] at hmd
        simp only [hmd, Bool.false_eq_true, if_false] at h
        exact resolveDatPathTail_strict_not_thumb env cache aDir (some d)
          skip hwf p h

theorem alookup_cacheResolvedPaths_self (cache : PathMap) (ck : Str)
    (md5 dn : Option Str) (out : Str) :
    alookup (cacheResolvedPaths cache ck md5 dn out) ck = some out := by
  unfold cacheResolvedPaths
  cases md5 with
  | none =>
    cases dn with
    | none => exact alookup_aset_self cache ck out
    | some d =>
      simp only []
      by_cases hd : (d ≠ ck && decide (some d ≠ (none : Option Str))) = true
      · rw [if_pos hd]
        simp only [Bool.and_eq_true, decide_eq_true_eq, ne_eq] at hd
        rw [alookup_aset_ne _ _ _ _ (fun hc => hd.1 hc), alookup_aset_self]
      · rw [if_neg hd, alookup_aset_self]
  | some m =>
    simp only []
    by_cases hm : m ≠ ck
    · rw [if_pos hm]
      cases dn with
      | none => rw [alookup_aset_ne _ _ _ _ hm, alookup_aset_self]
      | some d =>
        simp only []
        by_cases hd : (d ≠ ck && decide (some d ≠ some m)) = true
        · rw [if_pos hd]
          simp only [Bool.and_eq_true, decide_eq_true_eq, ne_eq] at hd
          rw [alookup_aset_ne _ _ _ _ (fun hc => hd.1 hc),
            alookup_aset_ne _ _ _ _ hm, alookup_aset_self]
        · rw [if_neg hd, alookup_aset_ne _ _ _ _ hm, alookup_aset_self]
    · rw [if_neg hm]
      cases dn with
      | none => exact alookup_aset_self cache ck out
      | some d =>
        simp only []
        by_cases hd : (d ≠ ck && decide (some d ≠ some m)) = true
        · rw [if_pos hd]
          simp only [Bool.and_eq_true, decide_eq_true_eq, ne_eq] at hd
          rw [alookup_aset_ne _ _ _ _ (fun hc => hd.1 hc), alookup_aset_self]
        · rw [if_neg hd, alookup_aset_self]

theorem mem_flagDel (fl : List Str) (x y : Str) :
    x ∈ flagDel fl y ↔ x ∈ fl ∧ x ≠ y := by
  unfold flagDel
  rw [List.mem_filter]
  simp

theorem clearUpdateFlags_not_mem (fl : List Str) (ck : Str) (md5 dn : Option Str) :
    ck ∉ clearUpdateFlags fl ck md5 dn ∧
    (∀ m, md5 = some m → m ∉ clearUpdateFlags fl ck md5 dn) ∧
    (∀ d, dn = some d → d ∉ clearUpdateFlags fl ck md5 dn) := by
  unfold clearUpdateFlags
  cases md5 with
  | none =>
    cases dn with
    | none => simp [mem_flagDel]
    | some d =>
      refine ⟨by simp [mem_flagDel], by simp, ?_⟩
      intro d' hd'
      cases hd'
      simp [mem_flagDel]
  | some m =>
    cases dn with
    | none =>
      refine ⟨by simp [mem_flagDel], ?_, by simp⟩
      intro m' hm'
      cases hm'
      simp [mem_flagDel]
    | some d =>
      refine ⟨by simp [mem_flagDel], ?_, ?_⟩
      · intro m' hm'
        cases hm'
        simp [mem_flagDel]
      · intro d' hd'
        cases hd'
        simp [mem_flagDel]

theorem detectExt_getD_mem (plain : Bytes) :
    (detectImageExtension plain).getD ".jpg".toList ∈ imageExtensions := by
  unfold detectImageExtension
  repeat' split
  all_goals decide

/-- C8: behavior of a forced refresh.  (i) The strict pass — thumbnails
disallowed, resolved-path cache bypassed — never resolves a
thumbnail-classified container.  (ii) When the strict pass finds a `.dat`
container and the decode pipeline succeeds, the forced call returns that
decode's output path, maps the cache key to it, the new entry is not
thumbnail-classified, and the update flags of the key and of its md5/datName
aliases are cleared.  (iii) When the strict pass finds nothing but the
thumbnail-allowing retry finds a container, the forced call degrades to a
`force := false` re-run on the updated state instead of failing outright. -/
theorem decryptImageForce_refresh (env : Env) (cfg : Config)
    (sid md5 dn : Option Str) (ck : Str) (st : ServiceState)
    (hwf : EnvWF env) :
    (∀ (aDir p : Str),
      (resolveDatPath env st.resolvedCache aDir md5 dn sid false true).1 =
        some p →
      isThumbnailPath p = false) ∧
    (∀ (aDir datPath : Str) (xk : Nat) (aesKey : Option Bytes) (plain : Bytes)
      (root : Str),
      cfg.myWxid ≠ none → cfg.dbPath ≠ none →
      env.resolveAccount = some aDir →
      (resolveDatPath env st.resolvedCache aDir md5 dn sid false true).1 =
        some datPath →
      ".dat".toList.isSuffixOf (toLowerStr (basenameStr datPath)) = true →
      containsSeq (toLowerStr (extnameStr datPath)) "dat".toList = true →
      cfg.imageXorKey = some xk → xk ≠ 0 →
      resolveAesKey cfg.imageAesKey = .ok aesKey →
      decryptDatAutoFS env datPath xk aesKey = .ok plain →
      getCacheRoot env cfg = .ok root →
      env.writeOk = true →
      ((decryptImageInternal env cfg sid md5 dn ck true st).1 =
        okRes (joinPath root (dropLastN (basenameStr datPath) 4 ++
          (detectImageExtension plain).getD ".jpg".toList)) ∧
       alookup (decryptImageInternal env cfg sid md5 dn ck true st).2.resolvedCache
          ck = some (joinPath root (dropLastN (basenameStr datPath) 4 ++
            (detectImageExtension plain).getD ".jpg".toList)) ∧
       isThumbnailPath (joinPath root (dropLastN (basenameStr datPath) 4 ++
          (detectImageExtension plain).getD ".jpg".toList)) = false ∧
       ck ∉ (decryptImageInternal env cfg sid md5 dn ck true st).2.updateFlags ∧
       (∀ m, md5 = some m →
        m ∉ (decryptImageInternal env cfg sid md5 dn ck true st).2.updateFlags) ∧
       (∀ d, dn = some d →
        d ∉ (decryptImageInternal env cfg sid md5 dn ck true st).2.updateFlags))) ∧
    (∀ (aDir q : Str),
      cfg.myWxid ≠ none → cfg.dbPath ≠ none →
      env.resolveAccount = some aDir →
      (resolveDatPath env st.resolvedCache aDir md5 dn sid false true).1 = none →
      (resolveDatPath env
        (resolveDatPath env st.resolvedCache aDir md5 dn sid false true).2
        aDir md5 dn sid true true).1 = some q →
      decryptImageInternal env cfg sid md5 dn ck true st =
        decryptImageInternalAux env cfg sid md5 dn ck false
          { resolvedCache := (resolveDatPath env
              (resolveDatPath env st.resolvedCache aDir md5 dn sid false true).2
              aDir md5 dn sid true true).2,
            updateFlags := st.updateFlags,
            cacheIndexed := st.cacheIndexed }
          (fun s => (failRes "unreachable", s))) := by
  refine ⟨?_, ?_, ?_⟩
  · intro aDir p hp
    exact resolveDatPath_strict_not_thumb env st.resolvedCache aDir md5 dn sid
      true hwf p hp
  · intro aDir datPath xk aesKey plain root hwx hdb hacct hr1 hsuf hdat hx hxk
      haes hdec hroot hw
    have hnt_dat : isThumbnailPath datPath = false :=
      resolveDatPath_strict_not_thumb env st.resolvedCache aDir md5 dn sid
        true hwf datPath hr1
    have hout_nt : isThumbnailPath (joinPath root
        (dropLastN (basenameStr datPath) 4 ++
          (detectImageExtension plain).getD ".jpg".toList)) = false :=
      output_not_thumbnail datPath _ root (detectExt_getD_mem plain) hnt_dat hsuf
    have hout : getCacheOutputPathFromDat env cfg datPath
        ((detectImageExtension plain).getD ".jpg".toList) =
        .ok (joinPath root (dropLastN (basenameStr datPath) 4 ++
          (detectImageExtension plain).getD ".jpg".toList)) := by
      unfold getCacheOutputPathFromDat
      rw [hroot]
      simp only [hsuf, if_true]
    have hcond : (decide (cfg.myWxid = none) || decide (cfg.dbPath = none)) =
        false := by simp [hwx, hdb]
    have hrun : decryptImageInternal env cfg sid md5 dn ck true st =
        (okRes (joinPath root (dropLastN (basenameStr datPath) 4 ++
          (detectImageExtension plain).getD ".jpg".toList)),
         { resolvedCache := cacheResolvedPaths
             (resolveDatPath env st.resolvedCache aDir md5 dn sid false true).2
             ck md5 dn (joinPath root (dropLastN (basenameStr datPath) 4 ++
               (detectImageExtension plain).getD ".jpg".toList)),
           updateFlags := clearUpdateFlags st.updateFlags ck md5 dn,
           cacheIndexed := st.cacheIndexed }) := by
      unfold decryptImageInternal
      rw [if_pos rfl]
      unfold decryptImageInternalAux
      rw [hcond]
      simp only [Bool.false_eq_true, if_false]
      rw [hacct]
      simp only [Bool.not_true]
      rw [hr1]
      simp only []
      rw [hdat]
      simp only [Bool.not_true, Bool.false_eq_true, if_false, if_true]
      rw [hx]
      simp only []
      rw [if_neg hxk, haes]
      simp only []
      rw [hdec]
      simp only []
      rw [hout]
      simp only []
      rw [hw]
      simp only [Bool.not_true, Bool.false_eq_true, if_false]
      rw [hnt_dat]
      simp only [Bool.not_false, if_true]
    rw [hrun]
    obtain ⟨hc1, hc2, hc3⟩ := clearUpdateFlags_not_mem st.updateFlags ck md5 dn
    exact ⟨rfl, alookup_cacheResolvedPaths_self _ ck md5 dn _, hout_nt,
      hc1, hc2, hc3⟩
  · intro aDir q hwx hdb hacct hr1 hr2
    have hcond : (decide (cfg.myWxid = none) || decide (cfg.dbPath = none)) =
        false := by simp [hwx, hdb]
    have hstep : ∀ fb : ServiceState → DIResult × ServiceState,
        decryptImageInternalAux env cfg sid md5 dn ck true st fb =
          fb { resolvedCache := (resolveDatPath env
                (resolveDatPath env st.resolvedCache aDir md5 dn sid false true).2
                aDir md5 dn sid true true).2,
               updateFlags := st.updateFlags,
               cacheIndexed := st.cacheIndexed } := by
      intro fb
      unfold decryptImageInternalAux
      rw [hcond]
      simp only [Bool.false_eq_true, if_false]
      rw [hacct]
      simp only [Bool.not_true]
      rw [hr1]
      simp only []
      rw [if_pos trivial]
      rw [hr2]
    unfold decryptImageInternal
    rw [if_pos rfl]
    rw [hstep]

/-- A 12-byte PNG-magic plaintext and its legacy-XOR ciphertext (key 1). -/
def c8Plain : Bytes := [137, 80, 78, 71, 13, 10, 26, 10, 1, 2, 3, 4]

def c8Bytes : Bytes := c8Plain.map (fun b => b ^^^ 1)

/-- The C8 witness environment: the hardlink index resolves the hash `h` to a
genuine non-thumbnail container `h_m.dat` holding a legacy-XOR PNG. -/
def c8Env : Env where
  fsExists := fun p => p = "/c/Images".toList || p = "/a/h_m.dat".toList
  readFile := fun p => if p = "/a/h_m.dat".toList then some c8Bytes else none
  readdir := fun _ => none
  isFileOk := fun _ => none
  mkdirOk := true
  documentsPath := "/docs".toList
  resolveAccount := some "/a".toList
  hardlink := fun m _ => if m = "h".toList then some "/a/h_m.dat".toList else none
  attachFiles := fun _ => []
  writeOk := true
  aesDecrypt := fun _ d => d

def c8Cfg : Config where
  myWxid := some "w".toList
  dbPath := some "/db".toList
  imageXorKey := some 1
  imageAesKey := none
  cachePath := some "/c".toList

/-- Witness for C8: a forced refresh on key `h` — flagged for update and
currently absent from the cache map — resolves the original container,
produces the non-thumbnail output `h_m.png`, and clears the update flag. -/
theorem decryptImageForce_refresh_witness :
    (decryptImageInternal c8Env c8Cfg none (some "h".toList) none "h".toList
      true ⟨[], ["h".toList], true⟩).1 = okRes "/c/Images/h_m.png".toList ∧
    isThumbnailPath "/c/Images/h_m.png".toList = false ∧
    "h".toList ∉ (decryptImageInternal c8Env c8Cfg none (some "h".toList) none
      "h".toList true ⟨[], ["h".toList], true⟩).2.updateFlags := by
  have h := (decryptImageForce_refresh c8Env c8Cfg none (some "h".toList) none
    "h".toList ⟨[], ["h".toList], true⟩
    (fun root df hdf => absurd hdf (List.not_mem_nil df))).2.1
    "/a".toList "/a/h_m.dat".toList 1 none c8Plain "/c/Images".toList
    (by decide) (by decide) (by decide) (by decide) (by decide) (by decide)
    (by decide) (by decide) (by decide) (by decide) (by decide) (by decide)
  refine ⟨?_, ?_, ?_⟩
  · have h1 := h.1
    rwa [show joinPath "/c/Images".toList
      (dropLastN (basenameStr "/a/h_m.dat".toList) 4 ++
        (detectImageExtension c8Plain).getD ".jpg".toList) =
      "/c/Images/h_m.png".toList from by decide] at h1
  · decide
  · exact h.2.2.2.1

/-! ## Claim theorems: search acceptance heuristics (C7) -/

/-- C7 (amended): the filesystem walk accepts a candidate exactly when its
base name (without `.dat`) carries a one-letter variant suffix — the
hash-shape alternative of `isLikelyImageDatBase` is absorbed by the walk's
additional `hasXVariant` requirement, so a bare content-hash name does not
suffice — and the candidate matches the target and the thumbnail policy.
Consequently a search for `abc123` matches `abc123_t.dat` and `abc123.c.dat`
(preferring the non-thumbnail `abc123.c.dat`), while `abc123.dat` and
`xabc123y.dat` are rejected outright, stricter candidates or not. -/
theorem walkForDat_acceptance (dn entry : Str) (aT tO : Bool) :
    (walkEntryAccept dn aT tO entry =
      (".dat".toList.isSuffixOf (toLowerStr entry) &&
       hasVariantTail (dropLastN (toLowerStr entry) 4) &&
       matchesDatName (toLowerStr entry) dn &&
       (aT || !isThumbnailDat (toLowerStr entry)) &&
       (!tO || isThumbnailDat (toLowerStr entry)))) ∧
    walkForDat [("/d".toList, "abc123_t.dat".toList),
      ("/d".toList, "abc123.c.dat".toList)] "abc123".toList true false =
      some "/d/abc123.c.dat".toList ∧
    walkForDat [("/d".toList, "abc123.dat".toList),
      ("/d".toList, "abc123_t.dat".toList),
      ("/d".toList, "abc123.c.dat".toList),
      ("/d".toList, "xabc123y.dat".toList)] "abc123".toList true false =
      some "/d/abc123.c.dat".toList := by
  refine ⟨?_, by decide, by decide⟩
  unfold walkEntryAccept isLikelyImageDatBase
  cases hv : hasVariantTail (dropLastN (toLowerStr entry) 4) <;> simp [hv]

/-- Counterexample to C7 as stated: a 32-hex-character base name is
hash-shaped — the claim's acceptance predicate holds — yet the walk rejects
it (no variant suffix), and a search for `abc123` matches neither
`abc123.dat` nor (even as the only candidate) `xabc123y.dat`. -/
theorem walkForDat_acceptance_counterexample :
    isLikelyImageDatBase "00112233445566778899aabbccddeeff".toList = true ∧
    walkForDat [("/d".toList,
        "00112233445566778899aabbccddeeff.dat".toList)]
      "00112233445566778899aabbccddeeff".toList true false = none ∧
    walkForDat [("/d".toList, "abc123.dat".toList)] "abc123".toList true false =
      none ∧
    walkForDat [("/d".toList, "xabc123y.dat".toList)] "abc123".toList true
      false = none := by
  exact ⟨by decide, by decide, by decide, by decide⟩

end WeFlow
